import Mathlib

/-!
Verification of the multishard mutation-query coordinator
(`multishard_mutation_query.cc`).

The development shallowly embeds the coordinator's data model and operations:

* `reader_state`, `remote_parts`, `reader_meta` — the per-shard reader
  state machine kept by `read_context`.
* `dismantle_combined_buffer`, `dismantle_compaction_state` — the buffer
  dismantler that routes unconsumed fragments back to their shards.
* `save_reader`, `save_readers`, `stop`, `do_query`,
  `do_query_on_all_shards` — the page lifecycle, with explicit
  state-passing; cross-shard effects are modelled sequentially, and the
  points where the C++ may throw are modelled with explicit failure
  oracles (`fail_on`) and eviction oracles (`inactive_reader`).
  Dereferences of null pointers / disengaged optionals are modelled as
  `Option.none` results (undefined behaviour has no defined result).
* `multi_range_reader.fill_buffer` — the special-purpose multi-range
  wrapper reader.

Theorems at the end settle the specification's claims about these
operations.
-/

namespace MultishardQuery

/-- A partition key decorated with its token (hash). -/
structure DecoratedKey where
  token : Nat
  key : Nat
deriving DecidableEq, Repr

/-- A sharder is a pure function from a token to a shard id
(`schema.get_sharder().shard_of(token)` in the source). -/
def Sharder := Nat → Nat

/-- Mutation fragment variants, each carrying its memory footprint
(`mutation_fragment_v2` with `memory_usage()` in the source). -/
inductive MutationFragment where
  | partitionStart (key : DecoratedKey) (size : Nat)
  | staticRow (size : Nat)
  | clusteringRow (size : Nat)
  | rangeTombstoneChange (size : Nat)
  | partitionEnd (size : Nat)
deriving DecidableEq, Repr

/-- Embeds `mutation_fragment_v2::is_partition_start()`. -/
def MutationFragment.is_partition_start : MutationFragment → Bool
  | .partitionStart _ _ => true
  | _ => false

/-- Embeds `mutation_fragment_v2::memory_usage()`. -/
def MutationFragment.memory_usage : MutationFragment → Nat
  | .partitionStart _ n => n
  | .staticRow n => n
  | .clusteringRow n => n
  | .rangeTombstoneChange n => n
  | .partitionEnd n => n

/-- The `read_context` per-shard reader state machine states. -/
inductive reader_state where
  | inexistent
  | successful_lookup
  | used
  | saving
deriving DecidableEq, Repr

/-- A reader permit. Permit comparison in the source is identity
comparison of the underlying permit object; `id` models that identity.
`max_result_size` is the mutable result-size cap
(`reader_permit::set_max_result_size`). -/
structure reader_permit where
  id : Nat
  max_result_size : Nat
deriving DecidableEq, Repr

/-- Embeds `reader_permit::operator==` (identity comparison; the
result-size cap is mutable state of the same permit, not part of its
identity). -/
def permit_eq (a b : reader_permit) : Bool := a.id == b.id

/-- Embeds `read_context::reader_meta::remote_parts`. The range, slice
and handle are abstracted to opaque ids; `handle` is the optional
inactive-read handle and `buffer` the optional unconsumed-fragment
buffer. -/
structure remote_parts where
  permit : reader_permit
  range : Option Nat := none
  slice : Option Nat := none
  handle : Option Nat := none
  buffer : Option (List MutationFragment) := none
deriving DecidableEq, Repr

/-- Embeds `read_context::reader_meta`. The default value mirrors
`reader_meta() = default`: `inexistent` state, no remote parts, no
dismantled buffer. -/
structure reader_meta where
  state : reader_state := .inexistent
  rparts : Option remote_parts := none
  dismantled_buffer : Option (List MutationFragment) := none
deriving DecidableEq, Repr

instance : Inhabited reader_meta := ⟨{}⟩

/-- Reads `_readers[shard]` (out-of-range reads yield the default meta;
the source always indexes with a valid shard id). -/
def getReader (readers : List reader_meta) (shard : Nat) : reader_meta :=
  readers.getD shard {}

/-- Writes `_readers[shard]`. -/
def setReader (readers : List reader_meta) (shard : Nat) (rm : reader_meta) :
    List reader_meta :=
  readers.set shard rm

/-- Embeds `reader_meta::get_dismantled_buffer`: creates the buffer if
absent. -/
def reader_meta.ensure_dismantled_buffer (rm : reader_meta) : reader_meta :=
  match rm.dismantled_buffer with
  | some _ => rm
  | none => { rm with dismantled_buffer := some [] }

/-- Embeds one `shard_buffer.emplace_front(...)` on the dismantled
buffer obtained via `get_dismantled_buffer`. -/
def reader_meta.emplace_front (rm : reader_meta) (f : MutationFragment) :
    reader_meta :=
  { rm with dismantled_buffer := some (f :: rm.dismantled_buffer.getD []) }

/-- Embeds `read_context::dismantle_buffer_stats`. -/
structure dismantle_buffer_stats where
  partitions : Nat := 0
  fragments : Nat := 0
  bytes : Nat := 0
  discarded_partitions : Nat := 0
  discarded_fragments : Nat := 0
  discarded_bytes : Nat := 0
deriving DecidableEq, Repr

/-- Embeds `dismantle_buffer_stats::add(const mutation_fragment_v2&)`. -/
def dismantle_buffer_stats.add (s : dismantle_buffer_stats)
    (mf : MutationFragment) : dismantle_buffer_stats :=
  { s with
    partitions := s.partitions + (if mf.is_partition_start then 1 else 0)
    fragments := s.fragments + 1
    bytes := s.bytes + mf.memory_usage }

/-- Embeds `dismantle_buffer_stats::add_discarded(const mutation_fragment_v2&)`. -/
def dismantle_buffer_stats.add_discarded (s : dismantle_buffer_stats)
    (mf : MutationFragment) : dismantle_buffer_stats :=
  { s with
    discarded_partitions :=
      s.discarded_partitions + (if mf.is_partition_start then 1 else 0)
    discarded_fragments := s.discarded_fragments + 1
    discarded_bytes := s.discarded_bytes + mf.memory_usage }

/-- The loop body of `read_context::dismantle_combined_buffer`, walking
the combined buffer from tail to head (the argument list is the
reversed buffer). `tmp` is the scratch list (`tmp_buffer`). -/
def dismantle_loop (sharder : Sharder) (readers : List reader_meta)
    (tmp : List MutationFragment) (stats : dismantle_buffer_stats) :
    List MutationFragment →
    List reader_meta × List MutationFragment × dismantle_buffer_stats
  | [] => (readers, tmp, stats)
  | mf :: rest =>
    match mf with
    | .partitionStart k sz =>
      let shard := sharder k.token
      if (getReader readers shard).state ≠ reader_state.saving then
        let stats1 := (tmp.foldl dismantle_buffer_stats.add_discarded stats).add_discarded
          (.partitionStart k sz)
        dismantle_loop sharder readers [] stats1 rest
      else
        let stats1 := (tmp.foldl dismantle_buffer_stats.add stats).add
          (.partitionStart k sz)
        let rm := ((getReader readers shard).ensure_dismantled_buffer)
        let rm1 := (tmp.foldl reader_meta.emplace_front rm).emplace_front
          (.partitionStart k sz)
        dismantle_loop sharder (setReader readers shard rm1) [] stats1 rest
    | other => dismantle_loop sharder readers (tmp ++ [other]) stats rest

/-- Embeds `read_context::dismantle_combined_buffer`. `pkey` is the last
delivered partition key; leftover scratch fragments are routed to its
shard at the end of the walk. -/
def dismantle_combined_buffer (sharder : Sharder) (readers : List reader_meta)
    (combined_buffer : List MutationFragment) (pkey : DecoratedKey) :
    List reader_meta × dismantle_buffer_stats :=
  let out := dismantle_loop sharder readers [] {} combined_buffer.reverse
  let readers1 := out.1
  let tmp := out.2.1
  let stats := out.2.2
  let shard := sharder pkey.token
  let stats1 := tmp.foldl dismantle_buffer_stats.add stats
  let rm := (getReader readers1 shard).ensure_dismantled_buffer
  let rm1 := tmp.foldl reader_meta.emplace_front rm
  (setReader readers1 shard rm1, stats1)

/-- Embeds `detached_compaction_state`: the in-progress partition's
`partition_start` (key and footprint), optional static row, and
optional current range-tombstone change (footprints only). -/
structure detached_compaction_state where
  partition_start_key : DecoratedKey
  partition_start_size : Nat
  static_row : Option Nat := none
  current_tombstone : Option Nat := none
deriving DecidableEq, Repr

/-- The fragment re-created from the compaction state's `partition_start`. -/
def detached_compaction_state.ps_fragment (cs : detached_compaction_state) :
    MutationFragment :=
  .partitionStart cs.partition_start_key cs.partition_start_size

/-- Embeds `read_context::dismantle_compaction_state`. -/
def dismantle_compaction_state (sharder : Sharder)
    (readers : List reader_meta) (cs : detached_compaction_state) :
    List reader_meta × dismantle_buffer_stats :=
  let shard := sharder cs.partition_start_key.token
  if (getReader readers shard).state ≠ reader_state.saving then
    let s0 : dismantle_buffer_stats := {}
    let s1 := match cs.current_tombstone with
      | some n => s0.add_discarded (.rangeTombstoneChange n)
      | none => s0
    let s2 := match cs.static_row with
      | some n => s1.add_discarded (.staticRow n)
      | none => s1
    (readers, s2.add_discarded cs.ps_fragment)
  else
    let s0 : dismantle_buffer_stats := {}
    let rm0 := (getReader readers shard).ensure_dismantled_buffer
    let step1 := match cs.current_tombstone with
      | some n => (rm0.emplace_front (.rangeTombstoneChange n),
                   s0.add (.rangeTombstoneChange n))
      | none => (rm0, s0)
    let step2 := match cs.static_row with
      | some n => (step1.1.emplace_front (.staticRow n),
                   step1.2.add (.staticRow n))
      | none => step1
    let rm3 := step2.1.emplace_front cs.ps_fragment
    let s3 := step2.2.add cs.ps_fragment
    (setReader readers shard rm3, s3)

/-- Embeds `stopped_reader`: the handle re-registered with the semaphore
and the unconsumed fragments handed back by the stopped shard reader. -/
structure stopped_reader where
  handle : Option Nat := none
  unconsumed_fragments : Option (List MutationFragment) := none
deriving DecidableEq, Repr

/-- Embeds `read_context::destroy_reader`. It is `noexcept` and always
returns a ready future; the returned `Bool` records whether the
invalid-state warning was logged. In `used` state it stores the stopped
reader's handle and unconsumed buffer into the shard's remote parts and
moves to `saving`; in any other state it only logs and leaves the meta
unchanged. -/
def destroy_reader (readers : List reader_meta) (shard : Nat)
    (reader : stopped_reader) : List reader_meta × Bool :=
  let rm := getReader readers shard
  if rm.state = reader_state.used then
    let rm1 := { rm with
      state := reader_state.saving
      rparts := rm.rparts.map (fun rp =>
        { rp with handle := reader.handle, buffer := reader.unconsumed_fragments }) }
    (setReader readers shard rm1, false)
  else
    (readers, true)

/-- Errors `read_context::create_reader` can raise: `std::logic_error`
for an invalid state, and `on_internal_error` (fail-fast for this
query) for a permit mismatch on a reused reader. -/
inductive create_reader_error where
  | logic_error
  | internal_error
deriving DecidableEq, Repr

/-- A shard reader as far as `create_reader` is concerned: its permit. -/
structure shard_reader where
  permit : reader_permit
deriving DecidableEq, Repr

/-- Embeds `read_context::create_reader` for one shard.
`unregister_result` is the outcome of
`semaphore().unregister_inactive_read(...)` — `none` means the saved
reader was evicted. Returns the updated reader metas and the reader
served, or the error thrown. -/
def create_reader (readers : List reader_meta) (shard : Nat)
    (permit : reader_permit) (range slice : Nat)
    (unregister_result : Option shard_reader) :
    Except create_reader_error (List reader_meta × shard_reader) :=
  let rm := getReader readers shard
  if rm.state ≠ reader_state.used ∧ rm.state ≠ reader_state.successful_lookup ∧
      rm.state ≠ reader_state.inexistent then
    .error .logic_error
  else
    let fresh : Except create_reader_error (List reader_meta × shard_reader) :=
      let rp : remote_parts := { permit := permit, range := some range, slice := some slice }
      let rm1 := { rm with state := reader_state.used, rparts := some rp }
      .ok (setReader readers shard rm1, { permit := rp.permit })
    match rm.state, unregister_result with
    | .successful_lookup, some r =>
      if permit_eq r.permit permit then
        .ok (setReader readers shard { rm with state := reader_state.used }, r)
      else
        .error .internal_error
    | _, _ => fresh

/-- Embeds `read_context::obtain_reader_permit` for one shard. In
`successful_lookup` state it returns the saved remote parts' permit
(with the result-size cap refreshed); dereferencing absent remote parts
is undefined, modelled as `none`. Otherwise a fresh permit is obtained
from the database (`fresh` oracle). -/
def obtain_reader_permit (readers : List reader_meta) (shard : Nat)
    (fresh : reader_permit) (max_size : Nat) : Option reader_permit :=
  let rm := getReader readers shard
  if rm.state = reader_state.successful_lookup then
    rm.rparts.map (fun rp => { rp.permit with max_result_size := max_size })
  else
    some { fresh with max_result_size := max_size }

/-- Embeds the `database::stats` counters the coordinator bumps. -/
structure db_stats where
  multishard_query_unpopped_fragments : Nat := 0
  multishard_query_unpopped_bytes : Nat := 0
  multishard_query_failed_reader_saves : Nat := 0
  total_reads : Nat := 0
  total_reads_failed : Nat := 0
  short_mutation_queries : Nat := 0
deriving DecidableEq, Repr

/-- Embeds `query::shard_mutation_querier` as stored in the querier
cache: the suspended reader's buffer (after the unconsumed and
dismantled fragments were pushed back), its permit, range, slice, and
the last delivered partition and clustering keys. -/
structure querier where
  query_uuid : Nat
  permit : reader_permit
  reader_buffer : List MutationFragment
  range : Option Nat
  slice : Option Nat
  last_pkey : DecoratedKey
  last_ckey : Option Nat
deriving DecidableEq, Repr

/-- The coordinator-visible global state: the per-shard reader metas,
the querier-cache entries (tagged with their shard), and the stats
counters (summed over shards). -/
structure coordinator_state where
  readers : List reader_meta
  cache : List (Nat × querier) := []
  stats : db_stats := {}
deriving DecidableEq, Repr

/-- Total memory footprint of a fragment list. -/
def buffer_bytes (l : List MutationFragment) : Nat :=
  (l.map MutationFragment.memory_usage).sum

/-- Embeds `read_context::save_reader` for one shard.

The source first does `std::exchange(_readers[shard], {})` — the
shard's meta is replaced by the default value before anything else.
The remote try block then dereferences the remote parts pointer and the
inactive-read handle (undefined when absent, modelled as `none`),
unregisters the inactive read (`inactive_reader` oracle: `none` means
the reader was evicted, `some buf` returns the reader with buffer
`buf`), pushes the unconsumed buffer and then the dismantled buffer
back in front of the reader's buffer with `unpop_mutation_fragment`,
builds a querier and inserts it into the shard's querier cache. Any
exception (`fail_on` oracle) is swallowed and counted in
`multishard_query_failed_reader_saves`; the returned future is ready
and non-failed in every case. -/
def save_reader (query_uuid : Nat) (last_pkey : DecoratedKey)
    (last_ckey : Option Nat) (fail_on : Nat → Bool)
    (inactive_reader : Nat → Option (List MutationFragment))
    (st : coordinator_state) (shard : Nat) : Option coordinator_state :=
  let rm := getReader st.readers shard
  let st1 := { st with readers := setReader st.readers shard {} }
  match rm.rparts with
  | none => none
  | some rp =>
    match rp.handle with
    | none => none
    | some _ =>
      if fail_on shard then
        some { st1 with stats := { st1.stats with
          multishard_query_failed_reader_saves :=
            st1.stats.multishard_query_failed_reader_saves + 1 } }
      else
        match inactive_reader shard with
        | none => some st1
        | some rbuf =>
          let dismantled := rm.dismantled_buffer.getD []
          let unconsumed := rp.buffer.getD []
          let final_buffer := dismantled ++ unconsumed ++ rbuf
          let fragments := unconsumed.length + dismantled.length
          let bytes := buffer_bytes dismantled + buffer_bytes unconsumed
          let q : querier := {
            query_uuid := query_uuid
            permit := rp.permit
            reader_buffer := final_buffer
            range := rp.range
            slice := rp.slice
            last_pkey := last_pkey
            last_ckey := last_ckey }
          some { st1 with
            cache := st1.cache ++ [(shard, q)]
            stats := { st1.stats with
              multishard_query_unpopped_fragments :=
                st1.stats.multishard_query_unpopped_fragments + fragments
              multishard_query_unpopped_bytes :=
                st1.stats.multishard_query_unpopped_bytes + bytes } }

/-- The per-shard loop of `read_context::save_readers` (the
`parallel_for_each` over all shards, modelled sequentially): shards in
`successful_lookup` or `saving` state go through `save_reader`, the
rest are skipped. Returns the final state and the list of shards for
which `save_reader` was invoked. -/
def save_loop (query_uuid : Nat) (last_pkey : DecoratedKey)
    (last_ckey : Option Nat) (fail_on : Nat → Bool)
    (inactive_reader : Nat → Option (List MutationFragment))
    (st : coordinator_state) (calls : List Nat) :
    List Nat → Option (coordinator_state × List Nat)
  | [] => some (st, calls)
  | shard :: rest =>
    let rm := getReader st.readers shard
    if rm.state = reader_state.successful_lookup ∨ rm.state = reader_state.saving then
      match save_reader query_uuid last_pkey last_ckey fail_on inactive_reader st shard with
      | none => none
      | some st1 =>
        save_loop query_uuid last_pkey last_ckey fail_on inactive_reader st1
          (calls ++ [shard]) rest
    else
      save_loop query_uuid last_pkey last_ckey fail_on inactive_reader st calls rest

/-- The arguments `save_readers` receives from the page consumer. -/
structure save_readers_args where
  unconsumed_buffer : List MutationFragment
  compaction_state : detached_compaction_state
  last_ckey : Option Nat := none
deriving DecidableEq, Repr

/-- Embeds `read_context::save_readers`. A stateless query
(`query_uuid` equal to the null UUID, modelled as `0`) short-circuits.
Otherwise the combined buffer and the detached compaction state are
dismantled onto the shards, and every shard in `successful_lookup` or
`saving` state is saved via `save_reader`. -/
def save_readers (sharder : Sharder) (query_uuid : Nat)
    (fail_on : Nat → Bool)
    (inactive_reader : Nat → Option (List MutationFragment))
    (st : coordinator_state) (args : save_readers_args) :
    Option (coordinator_state × List Nat) :=
  if query_uuid = 0 then
    some (st, [])
  else
    let last_pkey := args.compaction_state.partition_start_key
    let readers1 :=
      (dismantle_combined_buffer sharder st.readers args.unconsumed_buffer last_pkey).1
    let readers2 :=
      (dismantle_compaction_state sharder readers1 args.compaction_state).1
    let st2 := { st with readers := readers2 }
    save_loop query_uuid last_pkey args.last_ckey fail_on inactive_reader st2 []
      (List.range readers2.length)

/-- The per-shard loop of `read_context::stop`: every shard still
holding remote parts releases them on the owning shard, and if an
inactive-read handle is still there the reader is unregistered and, if
not already evicted, closed. Returns the final state and the shards
whose readers were closed. -/
def stop_loop (inactive_reader : Nat → Option (List MutationFragment))
    (st : coordinator_state) (closed : List Nat) :
    List Nat → coordinator_state × List Nat
  | [] => (st, closed)
  | shard :: rest =>
    let rm := getReader st.readers shard
    match rm.rparts with
    | none => stop_loop inactive_reader st closed rest
    | some rp =>
      let st1 := { st with
        readers := setReader st.readers shard { rm with rparts := none } }
      let closed1 :=
        if rp.handle.isSome && (inactive_reader shard).isSome then
          closed ++ [shard]
        else
          closed
      stop_loop inactive_reader st1 closed1 rest

/-- Embeds `read_context::stop`. It never fails: it is a total function
of the state. -/
def stop (inactive_reader : Nat → Option (List MutationFragment))
    (st : coordinator_state) : coordinator_state × List Nat :=
  stop_loop inactive_reader st [] (List.range st.readers.length)

/-- User-visible query errors (timeouts, admission failures, ...). -/
inductive query_error where
  | timeout
  | admission_denied
  | other
deriving DecidableEq, Repr

/-- The page result value handed to the client
(`ResultBuilder::result_type`). -/
structure query_result where
  row_count : Nat := 0
  is_short_read : Bool := false
deriving DecidableEq, Repr

/-- Embeds `page_consume_result`: what `read_page` hands back on
success. `limits_reached` is `compaction_state->are_limits_reached()`. -/
structure page_consume_result where
  last_ckey : Option Nat := none
  result : query_result := {}
  unconsumed_fragments : List MutationFragment := []
  compaction_state : detached_compaction_state
  limits_reached : Bool := false
deriving DecidableEq, Repr

/-- Observable events of one `do_query` run. -/
structure do_query_trace where
  stop_called : Bool := false
  save_called : Bool := false
deriving DecidableEq, Repr

/-- Embeds `do_query`. `page_outcome` is the outcome of
`lookup_readers` chained with `read_page` (the fallible part before
saving). On success, if the limits were reached or the page is a short
read, `save_readers` runs; `stop` runs afterwards on the success and
the error path alike, and the future's outcome (the page result or the
error) is returned unchanged. -/
def do_query (sharder : Sharder) (query_uuid : Nat) (fail_on : Nat → Bool)
    (inactive_reader : Nat → Option (List MutationFragment))
    (st : coordinator_state)
    (page_outcome : Except query_error page_consume_result) :
    Option (Except query_error query_result × coordinator_state × do_query_trace) :=
  match page_outcome with
  | .error e =>
    let stopped := stop inactive_reader st
    some (.error e, stopped.1, { stop_called := true, save_called := false })
  | .ok r =>
    if r.limits_reached || r.result.is_short_read then
      match save_readers sharder query_uuid fail_on inactive_reader st
          { unconsumed_buffer := r.unconsumed_fragments
            compaction_state := r.compaction_state
            last_ckey := r.last_ckey } with
      | none => none
      | some saved =>
        let stopped := stop inactive_reader saved.1
        some (.ok r.result, stopped.1, { stop_called := true, save_called := true })
    else
      let stopped := stop inactive_reader st
      some (.ok r.result, stopped.1, { stop_called := true, save_called := false })

/-- Embeds `query::read_command` (the fields the coordinator
consults). `query_uuid = 0` models the null UUID (a stateless query). -/
structure read_command where
  row_limit : Nat
  partition_row_limit : Nat
  partition_limit : Nat
  max_result_size : Option Nat := none
  query_uuid : Nat := 0
  is_first_page : Bool := false
deriving DecidableEq, Repr

/-- The database facts the coordinator consults. -/
structure database_model where
  cache_hit_rate : Nat
  unlimited_query_max_result_size : Nat
deriving DecidableEq, Repr

/-- Embeds `read_context::get_max_result_size`: the command's cap when
present, the database's unlimited-query maximum otherwise. -/
def get_max_result_size (cmd : read_command) (db : database_model) : Nat :=
  match cmd.max_result_size with
  | some s => s
  | none => db.unlimited_query_max_result_size

/-- Observable events of one `do_query_on_all_shards` run. -/
structure all_shards_trace where
  context_created : Bool := false
  stop_called : Bool := false
deriving DecidableEq, Repr

/-- Embeds `do_query_on_all_shards`. A zero row limit, per-partition
row limit or partition limit short-circuits to an empty result and the
table's cache hit rate, before any reader or context work. Otherwise
`*cmd.max_result_size` is dereferenced for the memory accounter
(undefined when absent, modelled as `none`), a read context is created
and `do_query` runs; success bumps `total_reads` (and
`short_mutation_queries` for short reads), failure bumps
`total_reads_failed` and rethrows. `mem_outcome` is the outcome of the
memory-limiter admission. -/
def do_query_on_all_shards (db : database_model) (cmd : read_command)
    (sharder : Sharder) (fail_on : Nat → Bool)
    (inactive_reader : Nat → Option (List MutationFragment))
    (st : coordinator_state) (mem_outcome : Except query_error Unit)
    (page_outcome : Except query_error page_consume_result) :
    Option (Except query_error (query_result × Nat) × coordinator_state × all_shards_trace) :=
  if cmd.row_limit = 0 || cmd.partition_row_limit = 0 || cmd.partition_limit = 0 then
    some (.ok ({}, db.cache_hit_rate), st, {})
  else
    match cmd.max_result_size with
    | none => none
    | some _ =>
      match mem_outcome with
      | .error e =>
        some (.error e,
          { st with stats := { st.stats with
            total_reads_failed := st.stats.total_reads_failed + 1 } },
          {})
      | .ok _ =>
        match do_query sharder cmd.query_uuid fail_on inactive_reader st page_outcome with
        | none => none
        | some (res, st1, tr) =>
          match res with
          | .error e =>
            some (.error e,
              { st1 with stats := { st1.stats with
                total_reads_failed := st1.stats.total_reads_failed + 1 } },
              { context_created := true, stop_called := tr.stop_called })
          | .ok r =>
            some (.ok (r, db.cache_hit_rate),
              { st1 with stats := { st1.stats with
                total_reads := st1.stats.total_reads + 1
                short_mutation_queries := st1.stats.short_mutation_queries +
                  (if r.is_short_read then 1 else 0) } },
              { context_created := true, stop_called := tr.stop_called })

/-- Embeds `query_mutations_on_all_shards` (the mutation-reconciliation
result builder flavour of `do_query_on_all_shards`). -/
def query_mutations_on_all_shards (db : database_model) (cmd : read_command)
    (sharder : Sharder) (fail_on : Nat → Bool)
    (inactive_reader : Nat → Option (List MutationFragment))
    (st : coordinator_state) (mem_outcome : Except query_error Unit)
    (page_outcome : Except query_error page_consume_result) :
    Option (Except query_error (query_result × Nat) × coordinator_state × all_shards_trace) :=
  do_query_on_all_shards db cmd sharder fail_on inactive_reader st mem_outcome page_outcome

/-- Embeds `query_data_on_all_shards` (the data result builder flavour
of `do_query_on_all_shards`). -/
def query_data_on_all_shards (db : database_model) (cmd : read_command)
    (sharder : Sharder) (fail_on : Nat → Bool)
    (inactive_reader : Nat → Option (List MutationFragment))
    (st : coordinator_state) (mem_outcome : Except query_error Unit)
    (page_outcome : Except query_error page_consume_result) :
    Option (Except query_error (query_result × Nat) × coordinator_state × all_shards_trace) :=
  do_query_on_all_shards db cmd sharder fail_on inactive_reader st mem_outcome page_outcome

/-- A fragment as seen by the multi-range reader, tagged with the index
of the range (in the range vector) it belongs to. The tag is a proof
artifact of the embedding: the underlying per-range reader only
produces fragments of its current range, which the tag records. -/
structure mr_fragment where
  range_idx : Nat
  payload : Nat
deriving DecidableEq, Repr

/-- The state of `multi_range_reader` together with its wrapped
underlying reader. `buffer` is the wrapper's own buffer;
`reader_buffer`, `reader_eos` and `reader_remaining` model the
underlying reader (its buffer, its end-of-stream flag, and the
fragments it has not yet produced for the current range); `cur` is the
index of the current range and `ranges_left` holds, per not-yet-visited
range of the vector, the fragments the underlying reader will produce
for it after `fast_forward_to`. -/
structure mr_state where
  buffer : List mr_fragment := []
  end_of_stream : Bool := false
  reader_buffer : List mr_fragment := []
  reader_eos : Bool := false
  reader_remaining : List mr_fragment := []
  cur : Nat := 0
  ranges_left : List (List mr_fragment) := []
deriving DecidableEq, Repr

/-- One `_reader.fill_buffer()` call on the underlying reader: it
either makes progress (at least one fragment is appended to the
reader's buffer; `chunk + 1` fragments are taken, the chunk size coming
from an oracle) or reaches end of stream. -/
def reader_fill (chunk : Nat) (st : mr_state) : mr_state :=
  match st.reader_remaining with
  | [] => { st with reader_eos := true }
  | _ :: _ => { st with
      reader_buffer := st.reader_buffer ++ st.reader_remaining.take (chunk + 1)
      reader_remaining := st.reader_remaining.drop (chunk + 1) }

/-- One `_reader.fast_forward_to(*it)` call: the underlying reader
switches to the next range. -/
def reader_fast_forward (st : mr_state) (r : List mr_fragment) : mr_state :=
  { st with reader_remaining := r, reader_eos := false, cur := st.cur + 1 }

/-- One `_reader.move_buffer_content_to(*this)` call: the underlying
reader's entire buffer moves to the back of the wrapper's buffer. -/
def move_buffer_content (st : mr_state) : mr_state :=
  { st with buffer := st.buffer ++ st.reader_buffer, reader_buffer := [] }

/-- Termination measure for the fill loop: the loop stops once the
wrapper's buffer is non-empty, the underlying reader hits end of
stream, the current range's pending fragments run out, or a range of
the vector is consumed. -/
def mr_measure (st : mr_state) : Nat :=
  (if st.buffer = [] then 1 else 0) + (if st.reader_eos then 0 else 1) +
    st.reader_remaining.length +
    (st.ranges_left.map (fun l => l.length + 2)).sum

/-- The `while (is_buffer_empty())` loop of
`multi_range_reader::fill_buffer`. Per iteration: if the underlying
reader is exhausted (empty buffer and end of stream), advance to the
next range or, if none is left, mark the wrapper's end of stream and
break; otherwise fill the underlying reader if its buffer is empty and
move its whole buffer content into the wrapper. `oracle k` is the chunk
size of the `k`-th underlying fill. -/
def fill_buffer_loop (oracle : Nat → Nat) (k : Nat) (st : mr_state) : mr_state :=
  if st.buffer ≠ [] then
    st
  else if st.reader_buffer = [] ∧ st.reader_eos = true then
    match h : st.ranges_left with
    | [] => { st with end_of_stream := true }
    | r :: rs =>
      let st1 := reader_fast_forward { st with ranges_left := rs } r
      let st2 := if st1.reader_buffer = [] then reader_fill (oracle k) st1 else st1
      fill_buffer_loop oracle (k + 1) (move_buffer_content st2)
  else
    let st2 := if st.reader_buffer = [] then reader_fill (oracle k) st else st
    fill_buffer_loop oracle (k + 1) (move_buffer_content st2)
termination_by mr_measure st
decreasing_by
  · rcases ‹st.reader_buffer = [] ∧ st.reader_eos = true› with ⟨hrb, heos⟩
    have hbuf : st.buffer = [] := by simp_all
    cases hr : r with
    | nil =>
      simp [mr_measure, move_buffer_content, reader_fill, reader_fast_forward,
        st2, st1, hbuf, hrb, heos, hr, h]
      omega
    | cons a l =>
      simp [mr_measure, move_buffer_content, reader_fill, reader_fast_forward,
        st2, st1, hbuf, hrb, heos, hr, h]
      omega
  · have hbuf : st.buffer = [] := by simp_all
    have hne : ¬(st.reader_buffer = [] ∧ st.reader_eos = true) := by assumption
    by_cases hrb : st.reader_buffer = []
    · have heos : st.reader_eos = false := by
        rcases Bool.eq_false_or_eq_true st.reader_eos with h1 | h1
        · exact absurd ⟨hrb, h1⟩ hne
        · exact h1
      cases hrem : st.reader_remaining with
      | nil =>
        simp [mr_measure, move_buffer_content, reader_fill, st2, hbuf, hrb, heos, hrem]
      | cons a l =>
        simp [mr_measure, move_buffer_content, reader_fill, st2, hbuf, hrb, heos, hrem]
        omega
    · simp [mr_measure, move_buffer_content, st2, hbuf, hrb]

/-- Embeds `multi_range_reader::fill_buffer`: returns immediately at
end of stream, otherwise runs the fill loop. -/
def mr_fill_buffer (oracle : Nat → Nat) (st : mr_state) : mr_state :=
  if st.end_of_stream then st else fill_buffer_loop oracle 0 st

/-- Well-formedness of the multi-range reader state: the underlying
reader's buffer and pending fragments belong to the current range, and
the fragments pending for the `i`-th not-yet-visited range belong to
that range. This is the contract of `create_reader` (a shard reader's
fragments cover partitions within the range it was created for). -/
def mr_wf (st : mr_state) : Prop :=
  (∀ f ∈ st.reader_buffer, f.range_idx = st.cur) ∧
  (∀ f ∈ st.reader_remaining, f.range_idx = st.cur) ∧
  (∀ i, ∀ f ∈ st.ranges_left.getD i [], f.range_idx = st.cur + 1 + i)

/-- The fragments contributed by an optional static row /
range-tombstone-change component. -/
def opt_frag (mk : Nat → MutationFragment) : Option Nat → List MutationFragment
  | some n => [mk n]
  | none => []

/-- A concrete one-shard reader vector with the shard in `saving`
state, used by witnesses. -/
def sample_saving_readers : List reader_meta :=
  [{ state := reader_state.saving
     rparts := some { permit := { id := 7, max_result_size := 10 }, handle := some 1 }
     dismantled_buffer := some [.clusteringRow 5] }]

/-- A fragment list containing no `partition_start`. -/
def no_partition_start (l : List MutationFragment) : Prop :=
  ∀ f ∈ l, f.is_partition_start = false

/-- The fragments of a chunk: its `partition_start` (key and footprint)
followed by its body. -/
def chunk_fragments (c : DecoratedKey × Nat × List MutationFragment) :
    List MutationFragment :=
  MutationFragment.partitionStart c.1 c.2.1 :: c.2.2

/-- The shard a chunk belongs to: the sharder applied to its key's
token. -/
def chunk_shard (sharder : Sharder) (c : DecoratedKey × Nat × List MutationFragment) :
    Nat :=
  sharder c.1.token

/-- The specification of combined-buffer dismantling, written the way
the spec describes it, per shard and in forward order: the prefix goes
to the shard of the last delivered partition key; a `saving` shard
receives exactly its own chunks in original stream order, in front of
its previous dismantled buffer; a non-`saving` shard's chunks are
dropped. -/
def dismantle_spec_shard (sharder : Sharder) (readers : List reader_meta)
    (pkey : DecoratedKey) (pre : List MutationFragment)
    (chunks : List (DecoratedKey × Nat × List MutationFragment)) (s : Nat) :
    List MutationFragment :=
  (if sharder pkey.token = s then pre else []) ++
  (if (getReader readers s).state = reader_state.saving then
    ((chunks.filter (fun c => chunk_shard sharder c = s)).map chunk_fragments).flatten
  else []) ++
  (getReader readers s).dismantled_buffer.getD []

/-- A concrete two-shard reader vector for the C2 witness: shard 0 is
`saving` with a non-empty dismantled buffer, shard 1 is `inexistent`. -/
def c2_readers : List reader_meta :=
  [{ state := reader_state.saving
     dismantled_buffer := some [.partitionEnd 7] }, {}]

/-- A concrete multi-range reader state for the C7 witness: two pending
fragments in range 0 and one more range in the vector. -/
def c7_state : mr_state :=
  { reader_remaining := [⟨0, 1⟩, ⟨0, 2⟩]
    cur := 0
    ranges_left := [[⟨1, 5⟩]] }

/-! Helper lemmas about the reader-meta vector. -/

theorem length_setReader (readers : List reader_meta) (s : Nat) (rm : reader_meta) :
    (setReader readers s rm).length = readers.length := by
  simp [setReader]

theorem getReader_setReader_self (readers : List reader_meta) (s : Nat)
    (rm : reader_meta) (h : s < readers.length) :
    getReader (setReader readers s rm) s = rm := by
  simp [getReader, setReader, List.getD_eq_getElem?_getD, List.getElem?_set, h]

theorem getReader_setReader_ne (readers : List reader_meta) (s t : Nat)
    (rm : reader_meta) (h : t ≠ s) :
    getReader (setReader readers s rm) t = getReader readers t := by
  unfold getReader setReader
  rw [List.getD_eq_getElem?_getD, List.getD_eq_getElem?_getD,
    List.getElem?_set_ne (Ne.symm h)]

theorem getReader_default_of_le (readers : List reader_meta) (s : Nat)
    (h : readers.length ≤ s) : getReader readers s = {} := by
  simp [getReader, List.getD_eq_getElem?_getD, List.getElem?_eq_none h]

theorem lt_length_of_state_active (readers : List reader_meta) (s : Nat)
    (h : (getReader readers s).state ≠ reader_state.inexistent) :
    s < readers.length := by
  by_contra hc
  push_neg at hc
  rw [getReader_default_of_le readers s hc] at h
  exact h rfl

theorem ensure_dismantled_buffer_eq (rm : reader_meta) :
    rm.ensure_dismantled_buffer =
      { rm with dismantled_buffer := some (rm.dismantled_buffer.getD []) } := by
  cases h : rm.dismantled_buffer with
  | none => simp [reader_meta.ensure_dismantled_buffer, h]
  | some b =>
    simp only [reader_meta.ensure_dismantled_buffer, h, Option.getD_some]
    rw [← h]

theorem foldl_emplace_front_some (rm : reader_meta) (b : List MutationFragment)
    (l : List MutationFragment) :
    l.foldl reader_meta.emplace_front { rm with dismantled_buffer := some b } =
      { rm with dismantled_buffer := some (l.reverse ++ b) } := by
  induction l generalizing b with
  | nil => simp
  | cons f t ih =>
    have : reader_meta.emplace_front { rm with dismantled_buffer := some b } f =
        { rm with dismantled_buffer := some (f :: b) } := by
      simp [reader_meta.emplace_front]
    rw [List.foldl_cons, this, ih]
    simp

/-- C6: `dismantle_compaction_state` routes the detached compaction
state to the shard of the active `partition_start`'s token. If that
shard is `saving`, the range-tombstone-change (if present), static row
(if present) and `partition_start` are front-inserted in that order, so
the dismantled buffer reads `partition_start`, static row,
range-tombstone-change, then the previous body when drained, every
other shard is untouched, and nothing is discarded. If that shard is
not `saving`, the reader metas are unchanged and all pieces are counted
as discarded. -/
theorem claim_C6_dismantle_compaction_state (sharder : Sharder)
    (readers : List reader_meta) (cs : detached_compaction_state) :
    ((getReader readers (sharder cs.partition_start_key.token)).state =
        reader_state.saving →
      (getReader (dismantle_compaction_state sharder readers cs).1
          (sharder cs.partition_start_key.token)).dismantled_buffer.getD [] =
        cs.ps_fragment ::
          (opt_frag MutationFragment.staticRow cs.static_row ++
            opt_frag MutationFragment.rangeTombstoneChange cs.current_tombstone ++
            (getReader readers
              (sharder cs.partition_start_key.token)).dismantled_buffer.getD []) ∧
      (∀ t, t ≠ sharder cs.partition_start_key.token →
        getReader (dismantle_compaction_state sharder readers cs).1 t =
          getReader readers t) ∧
      (dismantle_compaction_state sharder readers cs).2.discarded_fragments = 0 ∧
      (dismantle_compaction_state sharder readers cs).2.fragments =
        1 + (opt_frag MutationFragment.staticRow cs.static_row).length +
          (opt_frag MutationFragment.rangeTombstoneChange cs.current_tombstone).length) ∧
    ((getReader readers (sharder cs.partition_start_key.token)).state ≠
        reader_state.saving →
      (dismantle_compaction_state sharder readers cs).1 = readers ∧
      (dismantle_compaction_state sharder readers cs).2.fragments = 0 ∧
      (dismantle_compaction_state sharder readers cs).2.discarded_fragments =
        1 + (opt_frag MutationFragment.staticRow cs.static_row).length +
          (opt_frag MutationFragment.rangeTombstoneChange cs.current_tombstone).length) := by
  constructor
  · intro hsav
    have hlt : sharder cs.partition_start_key.token < readers.length := by
      apply lt_length_of_state_active
      rw [hsav]
      intro hcon
      exact absurd hcon (by decide)
    constructor
    · rw [dismantle_compaction_state]
      simp only [hsav, ne_eq, not_true_eq_false, if_false, ite_false]
      rcases hsr : cs.static_row with _ | nsr <;>
        rcases hrtc : cs.current_tombstone with _ | nrtc <;>
          simp [hsr, hrtc, getReader_setReader_self _ _ _ hlt,
            reader_meta.emplace_front, ensure_dismantled_buffer_eq, opt_frag]
    · refine ⟨?_, ?_, ?_⟩
      · intro t ht
        rw [dismantle_compaction_state]
        simp only [hsav, ne_eq, not_true_eq_false, if_false, ite_false]
        exact getReader_setReader_ne _ _ _ _ ht
      · rw [dismantle_compaction_state]
        simp only [hsav, ne_eq, not_true_eq_false, if_false, ite_false]
        rcases hsr : cs.static_row with _ | nsr <;>
          rcases hrtc : cs.current_tombstone with _ | nrtc <;>
            simp [hsr, hrtc, dismantle_buffer_stats.add]
      · rw [dismantle_compaction_state]
        simp only [hsav, ne_eq, not_true_eq_false, if_false, ite_false]
        rcases hsr : cs.static_row with _ | nsr <;>
          rcases hrtc : cs.current_tombstone with _ | nrtc <;>
            simp [hsr, hrtc, dismantle_buffer_stats.add, opt_frag]
  · intro hsav
    rw [dismantle_compaction_state]
    simp only [hsav, ne_eq, not_false_eq_true, if_true, ite_true]
    rcases hsr : cs.static_row with _ | nsr <;>
      rcases hrtc : cs.current_tombstone with _ | nrtc <;>
        simp [hsr, hrtc, dismantle_buffer_stats.add_discarded, opt_frag]

/-- C6 witness: a concrete saving shard receiving all three pieces. -/
theorem claim_C6_witness :
    (getReader sample_saving_readers 0).state = reader_state.saving ∧
    (getReader (dismantle_compaction_state (fun _ => 0) sample_saving_readers
        ⟨⟨1, 2⟩, 3, some 4, some 6⟩).1 0).dismantled_buffer.getD [] =
      [.partitionStart ⟨1, 2⟩ 3, .staticRow 4, .rangeTombstoneChange 6,
        .clusteringRow 5] := by
  constructor
  · decide
  · have h := (claim_C6_dismantle_compaction_state (fun _ => 0)
      sample_saving_readers ⟨⟨1, 2⟩, 3, some 4, some 6⟩).1 (by decide)
    rw [h.1]
    decide

/-- C9: `destroy_reader` on a shard in `used` state moves it to
`saving`, storing the stopped reader's inactive handle and unconsumed
buffer into the shard's remote parts; in any other state it only logs
(the returned flag) and leaves the metas unchanged. In both cases it
returns (it is total, modelling the always-ready, non-failed future). -/
theorem claim_C9_destroy_reader_transitions (readers : List reader_meta)
    (shard : Nat) (r : stopped_reader) :
    ((getReader readers shard).state = reader_state.used →
      ∀ rp, (getReader readers shard).rparts = some rp →
        destroy_reader readers shard r =
          (setReader readers shard
            { state := reader_state.saving
              rparts := some { rp with
                handle := r.handle
                buffer := r.unconsumed_fragments }
              dismantled_buffer := (getReader readers shard).dismantled_buffer },
           false)) ∧
    ((getReader readers shard).state ≠ reader_state.used →
      destroy_reader readers shard r = (readers, true)) := by
  constructor
  · intro h rp hrp
    simp [destroy_reader, h, hrp]
  · intro h
    simp [destroy_reader, h]

/-- C9 witness: the `used → saving` transition on a concrete shard, and
the logged no-op on a concrete shard in `saving` state. -/
theorem claim_C9_witness :
    destroy_reader
      [{ state := reader_state.used
         rparts := some { permit := { id := 3, max_result_size := 4 } } }] 0
      { handle := some 9, unconsumed_fragments := some [.partitionEnd 1] } =
      ([{ state := reader_state.saving
          rparts := some { permit := { id := 3, max_result_size := 4 }
                           handle := some 9
                           buffer := some [.partitionEnd 1] } }], false) ∧
    destroy_reader sample_saving_readers 0 { handle := some 9 } =
      (sample_saving_readers, true) := by
  constructor
  · have h := (claim_C9_destroy_reader_transitions
      [{ state := reader_state.used
         rparts := some { permit := { id := 3, max_result_size := 4 } } }] 0
      { handle := some 9, unconsumed_fragments := some [.partitionEnd 1] }).1
      (by decide) { permit := { id := 3, max_result_size := 4 } } (by decide)
    rw [h]
    decide
  · exact (claim_C9_destroy_reader_transitions sample_saving_readers 0
      { handle := some 9 }).2 (by decide)

/-- C5: on a shard in `successful_lookup` state, `obtain_reader_permit`
returns the saved remote parts' permit (same identity, refreshed
result-size cap), and `create_reader`, when the saved reader is
successfully unregistered, fail-fasts with an internal error exactly
when the passed-in permit differs from the reused reader's permit;
when they agree the saved reader is reused and the shard moves to
`used`. -/
theorem claim_C5_permit_identity_check (readers : List reader_meta)
    (shard : Nat) (p fresh : reader_permit) (range slice ms : Nat)
    (r : shard_reader)
    (h : (getReader readers shard).state = reader_state.successful_lookup) :
    (∀ rp, (getReader readers shard).rparts = some rp →
      obtain_reader_permit readers shard fresh ms =
        some { rp.permit with max_result_size := ms }) ∧
    (permit_eq r.permit p = false →
      create_reader readers shard p range slice (some r) =
        .error .internal_error) ∧
    (permit_eq r.permit p = true →
      create_reader readers shard p range slice (some r) =
        .ok (setReader readers shard
          { getReader readers shard with state := reader_state.used }, r)) := by
  refine ⟨?_, ?_, ?_⟩
  · intro rp hrp
    simp [obtain_reader_permit, h, hrp]
  · intro hne
    simp only [create_reader, h]
    simp [hne]
  · intro heq
    simp only [create_reader, h]
    simp [heq]

/-- C5 witness: a concrete `successful_lookup` shard where a mismatched
permit triggers the internal error and the matching permit reuses the
reader. -/
theorem claim_C5_witness :
    (getReader [{ state := reader_state.successful_lookup
                  rparts := some { permit := { id := 7, max_result_size := 1 }
                                   handle := some 2 } }] 0).state =
      reader_state.successful_lookup ∧
    create_reader [{ state := reader_state.successful_lookup
                     rparts := some { permit := { id := 7, max_result_size := 1 }
                                      handle := some 2 } }] 0
      { id := 8, max_result_size := 1 } 0 0
      (some { permit := { id := 7, max_result_size := 1 } }) =
      .error .internal_error := by
  refine ⟨by decide, ?_⟩
  exact (claim_C5_permit_identity_check
    [{ state := reader_state.successful_lookup
       rparts := some { permit := { id := 7, max_result_size := 1 }
                        handle := some 2 } }] 0
    { id := 8, max_result_size := 1 } { id := 0, max_result_size := 0 } 0 0 1
    { permit := { id := 7, max_result_size := 1 } } (by decide)).2.1 (by decide)

/-- C3: when the command's row limit, per-partition row limit or
partition limit is zero, both `query_mutations_on_all_shards` and
`query_data_on_all_shards` return an empty (default-constructed) result
together with the table's cache hit rate, with the coordinator state
unchanged (no readers looked up, created or touched), no read context
created and no stop run. -/
theorem claim_C3_zero_limit_short_circuit (db : database_model)
    (cmd : read_command) (sharder : Sharder) (fail_on : Nat → Bool)
    (inactive_reader : Nat → Option (List MutationFragment))
    (st : coordinator_state) (mem_outcome : Except query_error Unit)
    (page_outcome : Except query_error page_consume_result)
    (h : cmd.row_limit = 0 ∨ cmd.partition_row_limit = 0 ∨ cmd.partition_limit = 0) :
    query_mutations_on_all_shards db cmd sharder fail_on inactive_reader st
        mem_outcome page_outcome =
      some (.ok ({}, db.cache_hit_rate), st,
        { context_created := false, stop_called := false }) ∧
    query_data_on_all_shards db cmd sharder fail_on inactive_reader st
        mem_outcome page_outcome =
      some (.ok ({}, db.cache_hit_rate), st,
        { context_created := false, stop_called := false }) := by
  have hq : do_query_on_all_shards db cmd sharder fail_on inactive_reader st
      mem_outcome page_outcome =
      some (.ok ({}, db.cache_hit_rate), st,
        { context_created := false, stop_called := false }) := by
    rcases h with h | h | h <;> simp [do_query_on_all_shards, h]
  exact ⟨hq, hq⟩

/-- C3 witness: a concrete command with zero row limit short-circuits
with the state visibly untouched. -/
theorem claim_C3_witness :
    (0 = 0 ∨ (1 : Nat) = 0 ∨ (1 : Nat) = 0) ∧
    query_mutations_on_all_shards
      { cache_hit_rate := 42, unlimited_query_max_result_size := 100 }
      { row_limit := 0, partition_row_limit := 1, partition_limit := 1 }
      (fun _ => 0) (fun _ => false) (fun _ => none)
      { readers := sample_saving_readers } (.ok ()) (.error .timeout) =
      some (.ok ({}, 42), { readers := sample_saving_readers },
        { context_created := false, stop_called := false }) := by
  refine ⟨Or.inl rfl, ?_⟩
  exact (claim_C3_zero_limit_short_circuit
    { cache_hit_rate := 42, unlimited_query_max_result_size := 100 }
    { row_limit := 0, partition_row_limit := 1, partition_limit := 1 }
    (fun _ => 0) (fun _ => false) (fun _ => none)
    { readers := sample_saving_readers } (.ok ()) (.error .timeout)
    (Or.inl rfl)).1

/-- C10: with all three limits non-zero, `do_query_on_all_shards`
dereferences the command's optional `max_result_size` before starting
the read — its absence makes the non-empty-result path undefined
(modelled as `none`) — while `read_context::get_max_result_size`
separately tolerates the absence by falling back to the database's
unlimited-query maximum. -/
theorem claim_C10_max_result_size_precondition (db : database_model)
    (cmd : read_command) (sharder : Sharder) (fail_on : Nat → Bool)
    (inactive_reader : Nat → Option (List MutationFragment))
    (st : coordinator_state) (mem_outcome : Except query_error Unit)
    (page_outcome : Except query_error page_consume_result)
    (h0 : cmd.row_limit ≠ 0) (h1 : cmd.partition_row_limit ≠ 0)
    (h2 : cmd.partition_limit ≠ 0) (hm : cmd.max_result_size = none) :
    do_query_on_all_shards db cmd sharder fail_on inactive_reader st
        mem_outcome page_outcome = none ∧
    get_max_result_size cmd db = db.unlimited_query_max_result_size := by
  constructor
  · simp [do_query_on_all_shards, h0, h1, h2, hm]
  · simp [get_max_result_size, hm]

/-- C10 witness: a concrete command with non-zero limits and absent
`max_result_size` has no defined non-empty-result outcome, while
`get_max_result_size` falls back to the database maximum. -/
theorem claim_C10_witness :
    ((1 : Nat) ≠ 0 ∧ (2 : Nat) ≠ 0 ∧ (3 : Nat) ≠ 0 ∧
      (none : Option Nat) = none) ∧
    do_query_on_all_shards
      { cache_hit_rate := 42, unlimited_query_max_result_size := 100 }
      { row_limit := 1, partition_row_limit := 2, partition_limit := 3 }
      (fun _ => 0) (fun _ => false) (fun _ => none)
      { readers := [] } (.ok ()) (.error .timeout) = none ∧
    get_max_result_size
      { row_limit := 1, partition_row_limit := 2, partition_limit := 3 }
      { cache_hit_rate := 42, unlimited_query_max_result_size := 100 } = 100 := by
  have h := claim_C10_max_result_size_precondition
    { cache_hit_rate := 42, unlimited_query_max_result_size := 100 }
    { row_limit := 1, partition_row_limit := 2, partition_limit := 3 }
    (fun _ => 0) (fun _ => false) (fun _ => none)
    { readers := [] } (.ok ()) (.error .timeout)
    (by decide) (by decide) (by decide) rfl
  exact ⟨⟨by decide, by decide, by decide, rfl⟩, h.1, h.2⟩

/-! Dismantling touches only the dismantled buffers: each shard's state
and remote parts are preserved. These lemmas support the save-path
claims. -/

theorem state_ensure_dismantled (rm : reader_meta) :
    rm.ensure_dismantled_buffer.state = rm.state := by
  cases h : rm.dismantled_buffer <;> simp [reader_meta.ensure_dismantled_buffer, h]

theorem rparts_ensure_dismantled (rm : reader_meta) :
    rm.ensure_dismantled_buffer.rparts = rm.rparts := by
  cases h : rm.dismantled_buffer <;> simp [reader_meta.ensure_dismantled_buffer, h]

theorem state_foldl_emplace (l : List MutationFragment) :
    ∀ rm : reader_meta, (l.foldl reader_meta.emplace_front rm).state = rm.state := by
  induction l with
  | nil => intro rm; rfl
  | cons f t ih => intro rm; rw [List.foldl_cons, ih]; rfl

theorem rparts_foldl_emplace (l : List MutationFragment) :
    ∀ rm : reader_meta, (l.foldl reader_meta.emplace_front rm).rparts = rm.rparts := by
  induction l with
  | nil => intro rm; rfl
  | cons f t ih => intro rm; rw [List.foldl_cons, ih]; rfl

theorem core_setReader (readers : List reader_meta) (shard : Nat)
    (rm1 : reader_meta) (hstate : rm1.state = (getReader readers shard).state)
    (hrparts : rm1.rparts = (getReader readers shard).rparts) (s : Nat) :
    (getReader (setReader readers shard rm1) s).state = (getReader readers s).state ∧
    (getReader (setReader readers shard rm1) s).rparts = (getReader readers s).rparts := by
  by_cases hs : s = shard
  · subst hs
    by_cases hlt : s < readers.length
    · rw [getReader_setReader_self _ _ _ hlt]
      exact ⟨hstate, hrparts⟩
    · push_neg at hlt
      rw [getReader_default_of_le _ _ (by simpa [length_setReader] using hlt),
        getReader_default_of_le _ _ hlt]
      exact ⟨rfl, rfl⟩
  · rw [getReader_setReader_ne _ _ _ _ hs]
    exact ⟨rfl, rfl⟩

theorem dismantle_loop_core (sharder : Sharder) (l : List MutationFragment) :
    ∀ readers tmp stats s,
      ((getReader (dismantle_loop sharder readers tmp stats l).1 s).state =
        (getReader readers s).state ∧
      (getReader (dismantle_loop sharder readers tmp stats l).1 s).rparts =
        (getReader readers s).rparts) ∧
      (dismantle_loop sharder readers tmp stats l).1.length = readers.length := by
  induction l with
  | nil => intro readers tmp stats s; exact ⟨⟨rfl, rfl⟩, rfl⟩
  | cons mf rest ih =>
    intro readers tmp stats s
    cases mf with
    | partitionStart k sz =>
      by_cases hsav : (getReader readers (sharder k.token)).state ≠ reader_state.saving
      · simp only [dismantle_loop]
        rw [if_pos hsav]
        exact ih readers [] _ s
      · simp only [dismantle_loop]
        rw [if_neg hsav]
        have hcore := core_setReader readers (sharder k.token)
          ((tmp.foldl reader_meta.emplace_front
            (getReader readers (sharder k.token)).ensure_dismantled_buffer).emplace_front
            (.partitionStart k sz))
          (by rw [show ∀ rm : reader_meta, ∀ f, (rm.emplace_front f).state = rm.state
                  from fun _ _ => rfl,
                state_foldl_emplace, state_ensure_dismantled])
          (by rw [show ∀ rm : reader_meta, ∀ f, (rm.emplace_front f).rparts = rm.rparts
                  from fun _ _ => rfl,
                rparts_foldl_emplace, rparts_ensure_dismantled])
        have hih := ih (setReader readers (sharder k.token)
          ((tmp.foldl reader_meta.emplace_front
            (getReader readers (sharder k.token)).ensure_dismantled_buffer).emplace_front
            (.partitionStart k sz))) []
          ((tmp.foldl dismantle_buffer_stats.add stats).add (.partitionStart k sz)) s
        refine ⟨⟨?_, ?_⟩, ?_⟩
        · rw [hih.1.1, (hcore s).1]
        · rw [hih.1.2, (hcore s).2]
        · rw [hih.2, length_setReader]
    | staticRow n => exact ih readers (tmp ++ [.staticRow n]) stats s
    | clusteringRow n => exact ih readers (tmp ++ [.clusteringRow n]) stats s
    | rangeTombstoneChange n => exact ih readers (tmp ++ [.rangeTombstoneChange n]) stats s
    | partitionEnd n => exact ih readers (tmp ++ [.partitionEnd n]) stats s

theorem dismantle_combined_buffer_core (sharder : Sharder)
    (readers : List reader_meta) (buffer : List MutationFragment)
    (pkey : DecoratedKey) (s : Nat) :
    ((getReader (dismantle_combined_buffer sharder readers buffer pkey).1 s).state =
      (getReader readers s).state ∧
    (getReader (dismantle_combined_buffer sharder readers buffer pkey).1 s).rparts =
      (getReader readers s).rparts) ∧
    (dismantle_combined_buffer sharder readers buffer pkey).1.length =
      readers.length := by
  unfold dismantle_combined_buffer
  have hloop := dismantle_loop_core sharder buffer.reverse readers [] {} s
  have hcore := core_setReader (dismantle_loop sharder readers [] {} buffer.reverse).1
    (sharder pkey.token)
    ((dismantle_loop sharder readers [] {} buffer.reverse).2.1.foldl
      reader_meta.emplace_front
      (getReader (dismantle_loop sharder readers [] {} buffer.reverse).1
        (sharder pkey.token)).ensure_dismantled_buffer)
    (by rw [state_foldl_emplace, state_ensure_dismantled])
    (by rw [rparts_foldl_emplace, rparts_ensure_dismantled])
  refine ⟨⟨?_, ?_⟩, ?_⟩
  · rw [(hcore s).1, hloop.1.1]
  · rw [(hcore s).2, hloop.1.2]
  · rw [length_setReader, hloop.2]

theorem dismantle_compaction_state_core (sharder : Sharder)
    (readers : List reader_meta) (cs : detached_compaction_state) (s : Nat) :
    ((getReader (dismantle_compaction_state sharder readers cs).1 s).state =
      (getReader readers s).state ∧
    (getReader (dismantle_compaction_state sharder readers cs).1 s).rparts =
      (getReader readers s).rparts) ∧
    (dismantle_compaction_state sharder readers cs).1.length = readers.length := by
  unfold dismantle_compaction_state
  by_cases hsav : (getReader readers (sharder cs.partition_start_key.token)).state ≠
      reader_state.saving
  · rw [if_pos hsav]
    exact ⟨⟨rfl, rfl⟩, rfl⟩
  · rw [if_neg hsav]
    rcases hsr : cs.static_row with _ | nsr <;>
      rcases hrtc : cs.current_tombstone with _ | nrtc <;>
      · refine ⟨core_setReader _ _ _ ?_ ?_ s, by rw [length_setReader]⟩ <;>
          simp [hsr, hrtc, reader_meta.emplace_front, state_ensure_dismantled,
            rparts_ensure_dismantled]

/-! Lemmas about `save_reader` and the save loop. -/

theorem save_reader_some (query_uuid : Nat) (last_pkey : DecoratedKey)
    (last_ckey : Option Nat) (fail_on : Nat → Bool)
    (inactive_reader : Nat → Option (List MutationFragment))
    (st : coordinator_state) (shard : Nat) (st' : coordinator_state)
    (h : save_reader query_uuid last_pkey last_ckey fail_on inactive_reader st shard =
      some st') :
    st'.readers = setReader st.readers shard {} ∧
    st.stats.multishard_query_failed_reader_saves ≤
      st'.stats.multishard_query_failed_reader_saves := by
  rcases hrp : (getReader st.readers shard).rparts with _ | rp
  · simp [save_reader, hrp] at h
  · rcases hh : rp.handle with _ | hdl
    · simp [save_reader, hrp, hh] at h
    · simp only [save_reader, hrp, hh] at h
      by_cases hf : fail_on shard = true
      · rw [if_pos hf] at h
        injection h with h1
        subst h1
        exact ⟨rfl, Nat.le_succ _⟩
      · rw [if_neg hf] at h
        rcases hir : inactive_reader shard with _ | rbuf
        · simp only [hir] at h
          injection h with h1
          subst h1
          exact ⟨rfl, Nat.le_refl _⟩
        · simp only [hir] at h
          injection h with h1
          subst h1
          exact ⟨rfl, Nat.le_refl _⟩

theorem save_reader_fail (query_uuid : Nat) (last_pkey : DecoratedKey)
    (last_ckey : Option Nat) (fail_on : Nat → Bool)
    (inactive_reader : Nat → Option (List MutationFragment))
    (st : coordinator_state) (shard : Nat) (st' : coordinator_state)
    (hf : fail_on shard = true)
    (h : save_reader query_uuid last_pkey last_ckey fail_on inactive_reader st shard =
      some st') :
    st'.stats.multishard_query_failed_reader_saves =
      st.stats.multishard_query_failed_reader_saves + 1 ∧
    st'.cache = st.cache ∧ st'.readers = setReader st.readers shard {} := by
  rcases hrp : (getReader st.readers shard).rparts with _ | rp
  · simp [save_reader, hrp] at h
  · rcases hh : rp.handle with _ | hdl
    · simp [save_reader, hrp, hh] at h
    · simp only [save_reader, hrp, hh] at h
      rw [if_pos hf] at h
      injection h with h1
      subst h1
      exact ⟨rfl, rfl, rfl⟩

theorem save_loop_pointwise (query_uuid : Nat) (last_pkey : DecoratedKey)
    (last_ckey : Option Nat) (fail_on : Nat → Bool)
    (inactive_reader : Nat → Option (List MutationFragment))
    (shards : List Nat) :
    ∀ st calls st' calls',
      save_loop query_uuid last_pkey last_ckey fail_on inactive_reader st calls shards =
        some (st', calls') →
      ∀ s, getReader st'.readers s = getReader st.readers s ∨
        getReader st'.readers s = ({} : reader_meta) := by
  induction shards with
  | nil =>
    intro st calls st' calls' h s
    simp only [save_loop] at h
    cases h
    exact Or.inl rfl
  | cons shard rest ih =>
    intro st calls st' calls' h s
    simp only [save_loop] at h
    by_cases hq : (getReader st.readers shard).state = reader_state.successful_lookup ∨
        (getReader st.readers shard).state = reader_state.saving
    · rw [if_pos hq] at h
      rcases hsr : save_reader query_uuid last_pkey last_ckey fail_on inactive_reader
          st shard with _ | st1
      · rw [hsr] at h; exact absurd h (by simp)
      · rw [hsr] at h
        have hstep := (save_reader_some _ _ _ _ _ _ _ _ hsr).1
        rcases ih st1 (calls ++ [shard]) st' calls' h s with h1 | h1
        · rw [h1, hstep]
          by_cases hs : s = shard
          · subst hs
            by_cases hlt : s < st.readers.length
            · rw [getReader_setReader_self _ _ _ hlt]
              exact Or.inr rfl
            · push_neg at hlt
              rw [getReader_default_of_le _ _ (by simpa [length_setReader] using hlt)]
              exact Or.inr rfl
          · rw [getReader_setReader_ne _ _ _ _ hs]
            exact Or.inl rfl
        · exact Or.inr h1
    · rw [if_neg hq] at h
      exact ih st calls st' calls' h s

theorem save_loop_stats_mono (query_uuid : Nat) (last_pkey : DecoratedKey)
    (last_ckey : Option Nat) (fail_on : Nat → Bool)
    (inactive_reader : Nat → Option (List MutationFragment))
    (shards : List Nat) :
    ∀ st calls st' calls',
      save_loop query_uuid last_pkey last_ckey fail_on inactive_reader st calls shards =
        some (st', calls') →
      st.stats.multishard_query_failed_reader_saves ≤
        st'.stats.multishard_query_failed_reader_saves := by
  induction shards with
  | nil =>
    intro st calls st' calls' h
    simp only [save_loop] at h
    cases h
    exact Nat.le_refl _
  | cons shard rest ih =>
    intro st calls st' calls' h
    simp only [save_loop] at h
    by_cases hq : (getReader st.readers shard).state = reader_state.successful_lookup ∨
        (getReader st.readers shard).state = reader_state.saving
    · rw [if_pos hq] at h
      rcases hsr : save_reader query_uuid last_pkey last_ckey fail_on inactive_reader
          st shard with _ | st1
      · rw [hsr] at h; exact absurd h (by simp)
      · rw [hsr] at h
        exact Nat.le_trans (save_reader_some _ _ _ _ _ _ _ _ hsr).2
          (ih st1 (calls ++ [shard]) st' calls' h)
    · rw [if_neg hq] at h
      exact ih st calls st' calls' h

theorem save_loop_no_qualify (query_uuid : Nat) (last_pkey : DecoratedKey)
    (last_ckey : Option Nat) (fail_on : Nat → Bool)
    (inactive_reader : Nat → Option (List MutationFragment))
    (shards : List Nat) :
    ∀ st calls,
      (∀ s ∈ shards, (getReader st.readers s).state ≠ reader_state.successful_lookup ∧
        (getReader st.readers s).state ≠ reader_state.saving) →
      save_loop query_uuid last_pkey last_ckey fail_on inactive_reader st calls shards =
        some (st, calls) := by
  induction shards with
  | nil => intro st calls _; rfl
  | cons shard rest ih =>
    intro st calls hno
    have hhead := hno shard (List.mem_cons_self _ _)
    simp only [save_loop]
    rw [if_neg (fun hcon => hcon.elim hhead.1 hhead.2)]
    exact ih st calls (fun s hs => hno s (List.mem_cons_of_mem _ hs))

theorem save_loop_final_states (query_uuid : Nat) (last_pkey : DecoratedKey)
    (last_ckey : Option Nat) (fail_on : Nat → Bool)
    (inactive_reader : Nat → Option (List MutationFragment))
    (shards : List Nat) :
    ∀ st calls st' calls',
      save_loop query_uuid last_pkey last_ckey fail_on inactive_reader st calls shards =
        some (st', calls') →
      ∀ s ∈ shards, (getReader st'.readers s).state ≠ reader_state.successful_lookup ∧
        (getReader st'.readers s).state ≠ reader_state.saving := by
  induction shards with
  | nil =>
    intro st calls st' calls' h s hs
    exact absurd hs (List.not_mem_nil _)
  | cons shard rest ih =>
    intro st calls st' calls' h s hs
    simp only [save_loop] at h
    by_cases hq : (getReader st.readers shard).state = reader_state.successful_lookup ∨
        (getReader st.readers shard).state = reader_state.saving
    · rw [if_pos hq] at h
      rcases hsr : save_reader query_uuid last_pkey last_ckey fail_on inactive_reader
          st shard with _ | st1
      · rw [hsr] at h; exact absurd h (by simp)
      · rw [hsr] at h
        rcases List.mem_cons.mp hs with hsh | hsrest
        · subst hsh
          have hlt : s < st.readers.length := by
            apply lt_length_of_state_active
            rcases hq with hq | hq <;> rw [hq] <;> intro hcon <;>
              exact absurd hcon (by decide)
          have hst1 : getReader st1.readers s = ({} : reader_meta) := by
            rw [(save_reader_some _ _ _ _ _ _ _ _ hsr).1,
              getReader_setReader_self _ _ _ hlt]
          rcases save_loop_pointwise query_uuid last_pkey last_ckey fail_on
            inactive_reader rest st1 (calls ++ [s]) st' calls' h s with h1 | h1
          · rw [h1, hst1]; exact ⟨by decide, by decide⟩
          · rw [h1]; exact ⟨by decide, by decide⟩
        · exact ih st1 (calls ++ [shard]) st' calls' h s hsrest
    · rw [if_neg hq] at h
      rcases List.mem_cons.mp hs with hsh | hsrest
      · subst hsh
        rcases save_loop_pointwise query_uuid last_pkey last_ckey fail_on
          inactive_reader rest st calls st' calls' h s with h1 | h1
        · rw [h1]
          push_neg at hq
          exact hq
        · rw [h1]; exact ⟨by decide, by decide⟩
      · exact ih st calls st' calls' h s hsrest

theorem save_loop_fail_bump (query_uuid : Nat) (last_pkey : DecoratedKey)
    (last_ckey : Option Nat) (fail_on : Nat → Bool)
    (inactive_reader : Nat → Option (List MutationFragment))
    (shards : List Nat) :
    ∀ st calls st' calls' s, shards.Nodup → s ∈ shards →
      ((getReader st.readers s).state = reader_state.successful_lookup ∨
        (getReader st.readers s).state = reader_state.saving) →
      fail_on s = true →
      save_loop query_uuid last_pkey last_ckey fail_on inactive_reader st calls shards =
        some (st', calls') →
      st.stats.multishard_query_failed_reader_saves + 1 ≤
        st'.stats.multishard_query_failed_reader_saves := by
  induction shards with
  | nil =>
    intro st calls st' calls' s _ hs
    exact absurd hs (List.not_mem_nil _)
  | cons shard rest ih =>
    intro st calls st' calls' s hnodup hs hq hf h
    simp only [save_loop] at h
    rcases List.mem_cons.mp hs with hsh | hsrest
    · subst hsh
      rw [if_pos hq] at h
      rcases hsr : save_reader query_uuid last_pkey last_ckey fail_on inactive_reader
          st s with _ | st1
      · rw [hsr] at h; exact absurd h (by simp)
      · rw [hsr] at h
        have hbump := (save_reader_fail _ _ _ _ _ _ _ _ hf hsr).1
        have hmono := save_loop_stats_mono query_uuid last_pkey last_ckey fail_on
          inactive_reader rest st1 (calls ++ [s]) st' calls' h
        omega
    · have hshne : s ≠ shard := by
        intro hcon
        subst hcon
        exact (List.nodup_cons.mp hnodup).1 hsrest
      by_cases hqh : (getReader st.readers shard).state = reader_state.successful_lookup ∨
          (getReader st.readers shard).state = reader_state.saving
      · rw [if_pos hqh] at h
        rcases hsr : save_reader query_uuid last_pkey last_ckey fail_on inactive_reader
            st shard with _ | st1
        · rw [hsr] at h; exact absurd h (by simp)
        · rw [hsr] at h
          have hkeep : getReader st1.readers s = getReader st.readers s := by
            rw [(save_reader_some _ _ _ _ _ _ _ _ hsr).1,
              getReader_setReader_ne _ _ _ _ hshne]
          have hih := ih st1 (calls ++ [shard]) st' calls' s
            (List.nodup_cons.mp hnodup).2 hsrest (by rw [hkeep]; exact hq) hf h
          have hmono := (save_reader_some _ _ _ _ _ _ _ _ hsr).2
          omega
      · rw [if_neg hqh] at h
        exact ih st calls st' calls' s (List.nodup_cons.mp hnodup).2 hsrest hq hf h

/-! Lemmas about `stop`. -/

theorem lt_length_of_rparts_some (readers : List reader_meta) (s : Nat)
    (rp : remote_parts) (h : (getReader readers s).rparts = some rp) :
    s < readers.length := by
  by_contra hc
  push_neg at hc
  rw [getReader_default_of_le readers s hc] at h
  exact absurd h (by simp)

theorem stop_loop_stats_cache (inactive_reader : Nat → Option (List MutationFragment))
    (shards : List Nat) :
    ∀ st closed,
      (stop_loop inactive_reader st closed shards).1.stats = st.stats ∧
      (stop_loop inactive_reader st closed shards).1.cache = st.cache := by
  induction shards with
  | nil => intro st closed; exact ⟨rfl, rfl⟩
  | cons shard rest ih =>
    intro st closed
    rcases hrp : (getReader st.readers shard).rparts with _ | rp
    · simp only [stop_loop, hrp]
      exact ih st closed
    · simp only [stop_loop, hrp]
      exact ih _ _

theorem stop_loop_length (inactive_reader : Nat → Option (List MutationFragment))
    (shards : List Nat) :
    ∀ st closed,
      (stop_loop inactive_reader st closed shards).1.readers.length =
        st.readers.length := by
  induction shards with
  | nil => intro st closed; rfl
  | cons shard rest ih =>
    intro st closed
    rcases hrp : (getReader st.readers shard).rparts with _ | rp
    · simp only [stop_loop, hrp]
      exact ih st closed
    · simp only [stop_loop, hrp]
      rw [ih]
      exact length_setReader _ _ _

theorem stop_loop_rparts_pointwise
    (inactive_reader : Nat → Option (List MutationFragment)) (shards : List Nat) :
    ∀ st closed s,
      (getReader (stop_loop inactive_reader st closed shards).1.readers s).rparts =
        (getReader st.readers s).rparts ∨
      (getReader (stop_loop inactive_reader st closed shards).1.readers s).rparts =
        none := by
  induction shards with
  | nil => intro st closed s; exact Or.inl rfl
  | cons shard rest ih =>
    intro st closed s
    rcases hrp : (getReader st.readers shard).rparts with _ | rp
    · simp only [stop_loop, hrp]
      exact ih st closed s
    · simp only [stop_loop, hrp]
      rcases ih _ _ s with h1 | h1
      · rw [h1]
        by_cases hs : s = shard
        · subst hs
          have hlt : s < st.readers.length := lt_length_of_rparts_some _ _ _ hrp
          rw [getReader_setReader_self _ _ _ hlt]
          exact Or.inr rfl
        · rw [getReader_setReader_ne _ _ _ _ hs]
          exact Or.inl rfl
      · exact Or.inr h1

theorem stop_loop_rparts_mem
    (inactive_reader : Nat → Option (List MutationFragment)) (shards : List Nat) :
    ∀ st closed s, s ∈ shards →
      (getReader (stop_loop inactive_reader st closed shards).1.readers s).rparts =
        none := by
  induction shards with
  | nil => intro st closed s hs; exact absurd hs (List.not_mem_nil _)
  | cons shard rest ih =>
    intro st closed s hs
    rcases hrp : (getReader st.readers shard).rparts with _ | rp
    · simp only [stop_loop, hrp]
      rcases List.mem_cons.mp hs with hsh | hsrest
      · subst hsh
        rcases stop_loop_rparts_pointwise inactive_reader rest st closed s with h1 | h1
        · rw [h1, hrp]
        · exact h1
      · exact ih st closed s hsrest
    · simp only [stop_loop, hrp]
      rcases List.mem_cons.mp hs with hsh | hsrest
      · subst hsh
        have hlt : s < st.readers.length := lt_length_of_rparts_some _ _ _ hrp
        rcases stop_loop_rparts_pointwise inactive_reader rest _ _ s with h1 | h1
        · rw [h1, getReader_setReader_self _ _ _ hlt]
        · exact h1
      · exact ih _ _ s hsrest

theorem stop_loop_closed_mono
    (inactive_reader : Nat → Option (List MutationFragment)) (shards : List Nat) :
    ∀ st closed x, x ∈ closed →
      x ∈ (stop_loop inactive_reader st closed shards).2 := by
  induction shards with
  | nil => intro st closed x hx; exact hx
  | cons shard rest ih =>
    intro st closed x hx
    rcases hrp : (getReader st.readers shard).rparts with _ | rp
    · simp only [stop_loop, hrp]
      exact ih st closed x hx
    · simp only [stop_loop, hrp]
      apply ih
      by_cases hcond : rp.handle.isSome && (inactive_reader shard).isSome
      · rw [if_pos hcond]
        exact List.mem_append_left _ hx
      · rw [if_neg hcond]
        exact hx

theorem stop_loop_closed_mem
    (inactive_reader : Nat → Option (List MutationFragment)) (shards : List Nat) :
    ∀ st closed s rp, s ∈ shards →
      (getReader st.readers s).rparts = some rp →
      rp.handle.isSome = true → (inactive_reader s).isSome = true →
      s ∈ (stop_loop inactive_reader st closed shards).2 := by
  induction shards with
  | nil => intro st closed s rp hs; exact absurd hs (List.not_mem_nil _)
  | cons shard rest ih =>
    intro st closed s rp hs hrp hh hir
    by_cases hsh : s = shard
    · subst hsh
      simp only [stop_loop, hrp]
      apply stop_loop_closed_mono
      rw [if_pos (by rw [hh, hir]; rfl)]
      exact List.mem_append_right _ (List.mem_singleton_self _)
    · rcases List.mem_cons.mp hs with hcon | hsrest
      · exact absurd hcon hsh
      · rcases hrph : (getReader st.readers shard).rparts with _ | rph
        · simp only [stop_loop, hrph]
          exact ih st closed s rp hsrest hrp hh hir
        · simp only [stop_loop, hrph]
          apply ih _ _ s rp hsrest _ hh hir
          rw [getReader_setReader_ne _ _ _ _ hsh]
          exact hrp

theorem stop_rparts_none (inactive_reader : Nat → Option (List MutationFragment))
    (st : coordinator_state) (s : Nat) :
    (getReader (stop inactive_reader st).1.readers s).rparts = none := by
  by_cases hlt : s < st.readers.length
  · exact stop_loop_rparts_mem inactive_reader _ st [] s (List.mem_range.mpr hlt)
  · push_neg at hlt
    have hlen : (stop inactive_reader st).1.readers.length = st.readers.length := by
      unfold stop
      exact stop_loop_length _ _ st []
    rw [getReader_default_of_le _ s (by rw [hlen]; exact hlt)]

theorem stop_stats_cache (inactive_reader : Nat → Option (List MutationFragment))
    (st : coordinator_state) :
    (stop inactive_reader st).1.stats = st.stats ∧
    (stop inactive_reader st).1.cache = st.cache :=
  stop_loop_stats_cache inactive_reader _ st []

theorem stop_closed_mem (inactive_reader : Nat → Option (List MutationFragment))
    (st : coordinator_state) (s : Nat) (rp : remote_parts)
    (hrp : (getReader st.readers s).rparts = some rp)
    (hh : rp.handle.isSome = true) (hir : (inactive_reader s).isSome = true) :
    s ∈ (stop inactive_reader st).2 :=
  stop_loop_closed_mem inactive_reader _ st [] s rp
    (List.mem_range.mpr (lt_length_of_rparts_some _ _ _ hrp)) hrp hh hir

/-- C8: `do_query` invokes `stop` before returning on the success and
the error path alike, the query's outcome is the page future's outcome
(the stop phase never replaces it; `stop` is a total function of the
state, modelling its infallibility), and `stop` ships every shard's
still-live remote parts back (no shard holds remote parts afterwards)
and closes the reader recovered from any remaining inactive handle. -/
theorem claim_C8_stop_on_all_paths (sharder : Sharder) (query_uuid : Nat)
    (fail_on : Nat → Bool)
    (inactive_reader : Nat → Option (List MutationFragment))
    (st : coordinator_state)
    (page_outcome : Except query_error page_consume_result)
    (res : Except query_error query_result) (stF : coordinator_state)
    (tr : do_query_trace)
    (hdo : do_query sharder query_uuid fail_on inactive_reader st page_outcome =
      some (res, stF, tr)) :
    tr.stop_called = true ∧
    (∀ e, page_outcome = .error e → res = .error e) ∧
    (∀ r, page_outcome = .ok r → res = .ok r.result) ∧
    (∀ s, (getReader stF.readers s).rparts = none) ∧
    (∀ st' s rp, (getReader st'.readers s).rparts = some rp →
      rp.handle.isSome = true → (inactive_reader s).isSome = true →
      s ∈ (stop inactive_reader st').2) := by
  have hclose : ∀ st' s rp, (getReader st'.readers s).rparts = some rp →
      rp.handle.isSome = true → (inactive_reader s).isSome = true →
      s ∈ (stop inactive_reader st').2 :=
    fun st' s rp h1 h2 h3 => stop_closed_mem inactive_reader st' s rp h1 h2 h3
  cases page_outcome with
  | error e =>
    simp only [do_query] at hdo
    injection hdo with h1
    injection h1 with hres h2
    injection h2 with hstF htr
    subst hres; subst hstF; subst htr
    refine ⟨rfl, ?_, ?_, ?_, hclose⟩
    · intro e' he
      injection he with he
      subst he
      rfl
    · intro r hr
      exact absurd hr (by simp)
    · intro s
      exact stop_rparts_none inactive_reader st s
  | ok r =>
    simp only [do_query] at hdo
    by_cases hlim : (r.limits_reached || r.result.is_short_read) = true
    · rw [if_pos hlim] at hdo
      rcases hsv : save_readers sharder query_uuid fail_on inactive_reader st
          { unconsumed_buffer := r.unconsumed_fragments
            compaction_state := r.compaction_state
            last_ckey := r.last_ckey } with _ | saved
      · rw [hsv] at hdo
        exact absurd hdo (by simp)
      · rw [hsv] at hdo
        injection hdo with h1
        injection h1 with hres h2
        injection h2 with hstF htr
        subst hres; subst hstF; subst htr
        refine ⟨rfl, ?_, ?_, ?_, hclose⟩
        · intro e' he
          exact absurd he (by simp)
        · intro r' hr
          injection hr with hr
          subst hr
          rfl
        · intro s
          exact stop_rparts_none inactive_reader saved.1 s
    · rw [if_neg hlim] at hdo
      injection hdo with h1
      injection h1 with hres h2
      injection h2 with hstF htr
      subst hres; subst hstF; subst htr
      refine ⟨rfl, ?_, ?_, ?_, hclose⟩
      · intro e' he
        exact absurd he (by simp)
      · intro r' hr
        injection hr with hr
        subst hr
        rfl
      · intro s
        exact stop_rparts_none inactive_reader st s

/-- C8 witness: on a concrete failing page the stop phase still runs,
the timeout is returned unchanged, the remote parts are gone, and the
shard with a live handle had its reader closed. -/
theorem claim_C8_witness :
    do_query (fun _ => 0) 5 (fun _ => false) (fun _ => some [])
        { readers := sample_saving_readers } (.error .timeout) =
      some (.error .timeout,
        (stop (fun _ => some []) { readers := sample_saving_readers }).1,
        { stop_called := true, save_called := false }) ∧
    (getReader (stop (fun _ => some [])
        { readers := sample_saving_readers }).1.readers 0).rparts = none ∧
    0 ∈ (stop ((fun _ => some []) : Nat → Option (List MutationFragment))
        { readers := sample_saving_readers }).2 := by
  have hdo : do_query (fun _ => 0) 5 (fun _ => false) (fun _ => some [])
      { readers := sample_saving_readers } (.error .timeout) =
      some (.error .timeout,
        (stop (fun _ => some []) { readers := sample_saving_readers }).1,
        { stop_called := true, save_called := false }) := rfl
  have h := claim_C8_stop_on_all_paths (fun _ => 0) 5 (fun _ => false)
    (fun _ => some []) { readers := sample_saving_readers } (.error .timeout)
    (.error .timeout)
    (stop (fun _ => some []) { readers := sample_saving_readers }).1
    { stop_called := true, save_called := false } hdo
  refine ⟨hdo, h.2.2.2.1 0, ?_⟩
  exact h.2.2.2.2 { readers := sample_saving_readers } 0
    { permit := { id := 7, max_result_size := 10 }, handle := some 1 }
    (by decide) (by decide) (by decide)

/-- C1: for a stateful query (non-null `query_uuid`), if the save step
of any shard that goes through `save_reader` throws (the `fail_on`
oracle), the exception is swallowed (`save_reader` stays a total,
non-failing step and the whole `do_query` still returns the page to
the client) and `multishard_query_failed_reader_saves` is incremented
at least once. -/
theorem claim_C1_save_failures_swallowed (sharder : Sharder)
    (query_uuid : Nat) (fail_on : Nat → Bool)
    (inactive_reader : Nat → Option (List MutationFragment))
    (st : coordinator_state) (r : page_consume_result) (shard : Nat)
    (res : Except query_error query_result) (stF : coordinator_state)
    (tr : do_query_trace)
    (huuid : query_uuid ≠ 0)
    (hq : (getReader st.readers shard).state = reader_state.successful_lookup ∨
      (getReader st.readers shard).state = reader_state.saving)
    (hfail : fail_on shard = true)
    (hlim : r.limits_reached = true)
    (hdo : do_query sharder query_uuid fail_on inactive_reader st (.ok r) =
      some (res, stF, tr)) :
    res = .ok r.result ∧ tr.save_called = true ∧ tr.stop_called = true ∧
    st.stats.multishard_query_failed_reader_saves + 1 ≤
      stF.stats.multishard_query_failed_reader_saves := by
  simp only [do_query, hlim, Bool.true_or, if_true] at hdo
  rcases hsv : save_readers sharder query_uuid fail_on inactive_reader st
      { unconsumed_buffer := r.unconsumed_fragments
        compaction_state := r.compaction_state
        last_ckey := r.last_ckey } with _ | saved
  · rw [hsv] at hdo
    exact absurd hdo (by simp)
  · rw [hsv] at hdo
    injection hdo with h1
    injection h1 with hres h2
    injection h2 with hstF htr
    subst hres; subst hstF; subst htr
    refine ⟨rfl, rfl, rfl, ?_⟩
    simp only [save_readers] at hsv
    rw [if_neg huuid] at hsv
    rcases hsaved : saved with ⟨st1, calls1⟩
    rw [hsaved] at hsv
    have hcore1 := dismantle_combined_buffer_core sharder st.readers
      r.unconsumed_fragments r.compaction_state.partition_start_key shard
    have hcore2 := dismantle_compaction_state_core sharder
      (dismantle_combined_buffer sharder st.readers r.unconsumed_fragments
        r.compaction_state.partition_start_key).1 r.compaction_state shard
    have hlen : (dismantle_compaction_state sharder
        (dismantle_combined_buffer sharder st.readers r.unconsumed_fragments
          r.compaction_state.partition_start_key).1 r.compaction_state).1.length =
        st.readers.length := by
      rw [hcore2.2, hcore1.2]
    have hshard_lt : shard < st.readers.length := by
      apply lt_length_of_state_active
      rcases hq with hq | hq <;> rw [hq] <;> intro hcon <;>
        exact absurd hcon (by decide)
    have hbump := save_loop_fail_bump query_uuid
      r.compaction_state.partition_start_key r.last_ckey fail_on inactive_reader
      _ _ [] st1 calls1 shard (List.nodup_range _)
      (by rw [List.mem_range, hlen]; exact hshard_lt)
      (by rw [hcore2.1.1, hcore1.1.1]; exact hq) hfail hsv
    have hstop := (stop_stats_cache inactive_reader st1).1
    rw [hstop]
    exact hbump

/-- C1 witness: a concrete stateful query whose only shard's save step
throws; the page is returned and the failure counter reads 1. -/
theorem claim_C1_witness :
    (5 : Nat) ≠ 0 ∧
    ((getReader sample_saving_readers 0).state = reader_state.successful_lookup ∨
      (getReader sample_saving_readers 0).state = reader_state.saving) ∧
    (Except.ok ({} : query_result) :
        Except query_error query_result) = .ok ({} : query_result) ∧
    ({ stop_called := true, save_called := true } : do_query_trace).save_called =
      true ∧
    ({ readers := sample_saving_readers } :
      coordinator_state).stats.multishard_query_failed_reader_saves + 1 ≤
      ({ readers := [{}], cache := []
         stats := { multishard_query_failed_reader_saves := 1 } } :
        coordinator_state).stats.multishard_query_failed_reader_saves := by
  have hdo : do_query (fun _ => 0) 5 (fun _ => true) (fun _ => some [])
      { readers := sample_saving_readers }
      (.ok { compaction_state := ⟨⟨0, 0⟩, 1, none, none⟩, limits_reached := true }) =
      some (.ok {},
        { readers := [{}], cache := []
          stats := { multishard_query_failed_reader_saves := 1 } },
        { stop_called := true, save_called := true }) := by rfl
  have h := claim_C1_save_failures_swallowed (fun _ => 0) 5 (fun _ => true)
    (fun _ => some []) { readers := sample_saving_readers }
    { compaction_state := ⟨⟨0, 0⟩, 1, none, none⟩, limits_reached := true } 0
    (.ok {})
    { readers := [{}], cache := []
      stats := { multishard_query_failed_reader_saves := 1 } }
    { stop_called := true, save_called := true }
    (by decide) (Or.inr (by decide)) (by decide) (by decide) hdo
  exact ⟨by decide, Or.inr (by decide), h.1, h.2.1, h.2.2.2⟩

/-- C4: a second `save_readers` on the same context is a no-op on the
querier-cache state: the first invocation's `save_reader` exchanged
every saved shard's meta for the default value, so after the first
invocation no shard is in `successful_lookup` or `saving` state
(stateful case), the second invocation makes no `save_reader` call
(empty call list) and leaves the cache and stats exactly as the first
left them. -/
theorem claim_C4_save_readers_idempotent (sharder : Sharder)
    (query_uuid : Nat) (fail_on1 fail_on2 : Nat → Bool)
    (ir1 ir2 : Nat → Option (List MutationFragment))
    (st : coordinator_state) (args1 args2 : save_readers_args)
    (st1 : coordinator_state) (calls1 : List Nat)
    (h1 : save_readers sharder query_uuid fail_on1 ir1 st args1 =
      some (st1, calls1)) :
    ∃ st2, save_readers sharder query_uuid fail_on2 ir2 st1 args2 =
        some (st2, []) ∧
      st2.cache = st1.cache ∧ st2.stats = st1.stats ∧
      (query_uuid ≠ 0 →
        ∀ s, (getReader st1.readers s).state ≠ reader_state.successful_lookup ∧
          (getReader st1.readers s).state ≠ reader_state.saving) := by
  by_cases huuid : query_uuid = 0
  · simp only [save_readers, if_pos huuid] at h1
    injection h1 with h1
    injection h1 with hst hcalls
    subst hst
    refine ⟨st, ?_, rfl, rfl, fun hne => absurd huuid hne⟩
    simp only [save_readers, if_pos huuid]
  · simp only [save_readers] at h1
    rw [if_neg huuid] at h1
    have hA : ∀ s, (getReader st1.readers s).state ≠
        reader_state.successful_lookup ∧
        (getReader st1.readers s).state ≠ reader_state.saving := by
      intro s
      have hcore1 := dismantle_combined_buffer_core sharder st.readers
        args1.unconsumed_buffer args1.compaction_state.partition_start_key s
      have hcore2 := dismantle_compaction_state_core sharder
        (dismantle_combined_buffer sharder st.readers args1.unconsumed_buffer
          args1.compaction_state.partition_start_key).1 args1.compaction_state s
      have hlen : (dismantle_compaction_state sharder
          (dismantle_combined_buffer sharder st.readers args1.unconsumed_buffer
            args1.compaction_state.partition_start_key).1
          args1.compaction_state).1.length = st.readers.length := by
        rw [hcore2.2, hcore1.2]
      by_cases hlt : s < st.readers.length
      · exact save_loop_final_states query_uuid
          args1.compaction_state.partition_start_key args1.last_ckey fail_on1 ir1
          _ _ [] st1 calls1 h1 s (by rw [List.mem_range, hlen]; exact hlt)
      · push_neg at hlt
        rcases save_loop_pointwise query_uuid
          args1.compaction_state.partition_start_key args1.last_ckey fail_on1 ir1
          _ _ [] st1 calls1 h1 s with hp | hp
        · rw [hp, hcore2.1.1, hcore1.1.1, getReader_default_of_le _ _ hlt]
          exact ⟨by decide, by decide⟩
        · rw [hp]
          exact ⟨by decide, by decide⟩
    refine ⟨{ st1 with readers := (dismantle_compaction_state sharder
      (dismantle_combined_buffer sharder st1.readers args2.unconsumed_buffer
        args2.compaction_state.partition_start_key).1
      args2.compaction_state).1 }, ?_, rfl, rfl, fun _ => hA⟩
    simp only [save_readers]
    rw [if_neg huuid]
    apply save_loop_no_qualify
    intro s _
    have hcore1 := dismantle_combined_buffer_core sharder st1.readers
      args2.unconsumed_buffer args2.compaction_state.partition_start_key s
    have hcore2 := dismantle_compaction_state_core sharder
      (dismantle_combined_buffer sharder st1.readers args2.unconsumed_buffer
        args2.compaction_state.partition_start_key).1 args2.compaction_state s
    rw [hcore2.1.1, hcore1.1.1]
    exact hA s

/-- C4 witness: on a concrete stateful context the second `save_readers`
runs with no `save_reader` call and the cache as the first call left
it. -/
theorem claim_C4_witness :
    save_readers (fun _ => 0) 5 (fun _ => true) (fun _ => some [])
        { readers := sample_saving_readers }
        { unconsumed_buffer := [], compaction_state := ⟨⟨0, 0⟩, 1, none, none⟩ } =
      some ({ readers := [{}], cache := []
              stats := { multishard_query_failed_reader_saves := 1 } }, [0]) ∧
    ∃ st2, save_readers (fun _ => 0) 5 (fun _ => true) (fun _ => some [])
        { readers := [{}], cache := []
          stats := { multishard_query_failed_reader_saves := 1 } }
        { unconsumed_buffer := [], compaction_state := ⟨⟨0, 0⟩, 1, none, none⟩ } =
        some (st2, []) ∧
      st2.cache = [] ∧
      st2.stats = { multishard_query_failed_reader_saves := 1 } := by
  have hfirst : save_readers (fun _ => 0) 5 (fun _ => true) (fun _ => some [])
      { readers := sample_saving_readers }
      { unconsumed_buffer := [], compaction_state := ⟨⟨0, 0⟩, 1, none, none⟩ } =
      some ({ readers := [{}], cache := []
              stats := { multishard_query_failed_reader_saves := 1 } }, [0]) := by
    decide
  obtain ⟨st2, hs2, hcache, hstats, _⟩ := claim_C4_save_readers_idempotent
    (fun _ => 0) 5 (fun _ => true) (fun _ => true) (fun _ => some [])
    (fun _ => some []) { readers := sample_saving_readers }
    { unconsumed_buffer := [], compaction_state := ⟨⟨0, 0⟩, 1, none, none⟩ }
    { unconsumed_buffer := [], compaction_state := ⟨⟨0, 0⟩, 1, none, none⟩ }
    { readers := [{}], cache := []
      stats := { multishard_query_failed_reader_saves := 1 } } [0] hfirst
  exact ⟨hfirst, st2, hs2, hcache, hstats⟩

/-! The combined-buffer dismantler: a forward (head-to-tail)
characterisation of the tail-to-head walk. A combined buffer uniquely
decomposes into a prefix without `partition_start` (the tail of the
partition whose start was already consumed by the result builder)
followed by chunks, each a `partition_start` with its body. -/

theorem dismantle_loop_append_no_ps (sharder : Sharder)
    (readers : List reader_meta) (stats : dismantle_buffer_stats)
    (xs : List MutationFragment) (h : no_partition_start xs) :
    ∀ tmp rest, dismantle_loop sharder readers tmp stats (xs ++ rest) =
      dismantle_loop sharder readers (tmp ++ xs) stats rest := by
  induction xs with
  | nil => intro tmp rest; simp
  | cons f t ih =>
    intro tmp rest
    have hf : f.is_partition_start = false := h f (List.mem_cons_self _ _)
    have ht : no_partition_start t := fun g hg => h g (List.mem_cons_of_mem _ hg)
    cases f with
    | partitionStart k sz => simp [MutationFragment.is_partition_start] at hf
    | staticRow n =>
      rw [List.cons_append]
      simp only [dismantle_loop]
      rw [ih ht (tmp ++ [MutationFragment.staticRow n]) rest, List.append_assoc]
      rfl
    | clusteringRow n =>
      rw [List.cons_append]
      simp only [dismantle_loop]
      rw [ih ht (tmp ++ [MutationFragment.clusteringRow n]) rest, List.append_assoc]
      rfl
    | rangeTombstoneChange n =>
      rw [List.cons_append]
      simp only [dismantle_loop]
      rw [ih ht (tmp ++ [MutationFragment.rangeTombstoneChange n]) rest, List.append_assoc]
      rfl
    | partitionEnd n =>
      rw [List.cons_append]
      simp only [dismantle_loop]
      rw [ih ht (tmp ++ [MutationFragment.partitionEnd n]) rest, List.append_assoc]
      rfl

theorem dismantle_loop_stats_indep (sharder : Sharder)
    (l : List MutationFragment) :
    ∀ readers tmp s1 s2,
      (dismantle_loop sharder readers tmp s1 l).1 =
        (dismantle_loop sharder readers tmp s2 l).1 ∧
      (dismantle_loop sharder readers tmp s1 l).2.1 =
        (dismantle_loop sharder readers tmp s2 l).2.1 := by
  induction l with
  | nil => intro readers tmp s1 s2; exact ⟨rfl, rfl⟩
  | cons f rest ih =>
    intro readers tmp s1 s2
    cases f with
    | partitionStart k sz =>
      by_cases hsv : (getReader readers (sharder k.token)).state ≠ reader_state.saving
      · simp only [dismantle_loop]
        rw [if_pos hsv, if_pos hsv]
        exact ih readers [] _ _
      · simp only [dismantle_loop]
        rw [if_neg hsv, if_neg hsv]
        exact ih _ [] _ _
    | staticRow n => exact ih readers (tmp ++ [.staticRow n]) s1 s2
    | clusteringRow n => exact ih readers (tmp ++ [.clusteringRow n]) s1 s2
    | rangeTombstoneChange n => exact ih readers (tmp ++ [.rangeTombstoneChange n]) s1 s2
    | partitionEnd n => exact ih readers (tmp ++ [.partitionEnd n]) s1 s2

theorem dismantle_combined_no_ps (sharder : Sharder)
    (readers : List reader_meta) (pre : List MutationFragment)
    (pkey : DecoratedKey) (hpre : no_partition_start pre) :
    (dismantle_combined_buffer sharder readers pre pkey).1 =
      setReader readers (sharder pkey.token)
        { getReader readers (sharder pkey.token) with
          dismantled_buffer := some (pre ++
            (getReader readers (sharder pkey.token)).dismantled_buffer.getD []) } := by
  unfold dismantle_combined_buffer
  have hrev : no_partition_start pre.reverse := by
    intro f hf
    exact hpre f (List.mem_reverse.mp hf)
  have hloop := dismantle_loop_append_no_ps sharder readers {} pre.reverse hrev [] []
  simp only [List.append_nil, List.nil_append, dismantle_loop] at hloop
  rw [hloop]
  simp only [ensure_dismantled_buffer_eq, foldl_emplace_front_some,
    List.reverse_reverse]

theorem dismantle_combined_snoc (sharder : Sharder)
    (readers : List reader_meta) (pkey : DecoratedKey)
    (buffer0 body : List MutationFragment) (k : DecoratedKey) (sz : Nat)
    (hbody : no_partition_start body) :
    (dismantle_combined_buffer sharder readers
        (buffer0 ++ (MutationFragment.partitionStart k sz :: body)) pkey).1 =
      (dismantle_combined_buffer sharder
        (if (getReader readers (sharder k.token)).state = reader_state.saving
         then setReader readers (sharder k.token)
           { getReader readers (sharder k.token) with
             dismantled_buffer := some
               (MutationFragment.partitionStart k sz :: body ++
                 (getReader readers (sharder k.token)).dismantled_buffer.getD []) }
         else readers)
        buffer0 pkey).1 := by
  have hrev : no_partition_start body.reverse := by
    intro f hf
    exact hbody f (List.mem_reverse.mp hf)
  have hsplit : (buffer0 ++ (MutationFragment.partitionStart k sz :: body)).reverse =
      body.reverse ++ (MutationFragment.partitionStart k sz :: buffer0.reverse) := by
    simp
  unfold dismantle_combined_buffer
  rw [hsplit,
    dismantle_loop_append_no_ps sharder readers {} body.reverse hrev []
      (MutationFragment.partitionStart k sz :: buffer0.reverse)]
  by_cases hsv : (getReader readers (sharder k.token)).state = reader_state.saving
  · rw [if_pos hsv]
    simp only [dismantle_loop]
    rw [if_neg (by rw [hsv]; exact fun hcon => hcon rfl)]
    have hrm : ((List.foldl reader_meta.emplace_front
        (getReader readers (sharder k.token)).ensure_dismantled_buffer
        ([] ++ body.reverse)).emplace_front (MutationFragment.partitionStart k sz)) =
        { getReader readers (sharder k.token) with
          dismantled_buffer := some
            (MutationFragment.partitionStart k sz :: body ++
              (getReader readers (sharder k.token)).dismantled_buffer.getD []) } := by
      rw [List.nil_append, ensure_dismantled_buffer_eq, foldl_emplace_front_some]
      simp [reader_meta.emplace_front]
    rw [hrm]
    have hindep := dismantle_loop_stats_indep sharder buffer0.reverse
      (setReader readers (sharder k.token)
        { getReader readers (sharder k.token) with
          dismantled_buffer := some
            (MutationFragment.partitionStart k sz :: body ++
              (getReader readers (sharder k.token)).dismantled_buffer.getD []) })
      [] ((List.foldl dismantle_buffer_stats.add {} ([] ++ body.reverse)).add
        (MutationFragment.partitionStart k sz)) {}
    rw [hindep.1, hindep.2]
  · rw [if_neg hsv]
    simp only [dismantle_loop]
    rw [if_pos (by intro hcon; exact hsv hcon)]
    have hindep := dismantle_loop_stats_indep sharder buffer0.reverse readers []
      ((List.foldl dismantle_buffer_stats.add_discarded {} ([] ++ body.reverse)).add_discarded
        (MutationFragment.partitionStart k sz)) {}
    rw [hindep.1, hindep.2]

theorem dismantle_combined_buffer_spec (sharder : Sharder)
    (pkey : DecoratedKey) (pre : List MutationFragment)
    (hpre : no_partition_start pre) :
    ∀ chunks : List (DecoratedKey × Nat × List MutationFragment),
      (∀ c ∈ chunks, no_partition_start c.2.2) →
      ∀ readers : List reader_meta, (∀ t, sharder t < readers.length) → ∀ s,
      (getReader (dismantle_combined_buffer sharder readers
          (pre ++ (chunks.map chunk_fragments).flatten) pkey).1 s).dismantled_buffer.getD [] =
        dismantle_spec_shard sharder readers pkey pre chunks s := by
  intro chunks
  induction chunks using List.reverseRecOn with
  | nil =>
    intro _ readers hsh s
    rw [List.map_nil, List.flatten_nil, List.append_nil,
      dismantle_combined_no_ps sharder readers pre pkey hpre]
    unfold dismantle_spec_shard
    by_cases hs : sharder pkey.token = s
    · subst hs
      rw [getReader_setReader_self _ _ _ (hsh pkey.token)]
      simp
    · rw [getReader_setReader_ne _ _ _ _ (fun hcon => hs hcon.symm)]
      simp [hs]
  | append_singleton cs c ih =>
    intro hbody readers hsh s
    obtain ⟨k, sz, body⟩ := c
    have hb : no_partition_start body := hbody (k, sz, body) (by simp)
    have hcs : ∀ c' ∈ cs, no_partition_start c'.2.2 := fun c' hc' =>
      hbody c' (by simp [hc'])
    have hbuf : pre ++ ((cs ++ [(k, sz, body)]).map chunk_fragments).flatten =
        (pre ++ (cs.map chunk_fragments).flatten) ++
          (MutationFragment.partitionStart k sz :: body) := by
      simp [chunk_fragments]
    rw [hbuf, dismantle_combined_snoc sharder readers pkey _ body k sz hb]
    by_cases hsv : (getReader readers (sharder k.token)).state = reader_state.saving
    · rw [if_pos hsv]
      rw [ih hcs _ (fun t => by rw [length_setReader]; exact hsh t) s]
      unfold dismantle_spec_shard
      by_cases hs : s = sharder k.token
      · subst hs
        rw [getReader_setReader_self _ _ _ (hsh k.token)]
        simp only [hsv, if_true, ite_true, Option.getD_some, List.filter_append]
        have hcf : List.filter (fun c => decide (chunk_shard sharder c = sharder k.token))
            [(k, sz, body)] = [(k, sz, body)] := by
          simp [chunk_shard]
        rw [hcf]
        simp [chunk_fragments]
      · rw [getReader_setReader_ne _ _ _ _ hs]
        have hcf : List.filter (fun c => decide (chunk_shard sharder c = s))
            [(k, sz, body)] = [] := by
          simp [chunk_shard]
          exact fun hcon => hs hcon.symm
        rw [List.filter_append, hcf, List.append_nil]
    · rw [if_neg hsv]
      rw [ih hcs readers hsh s]
      unfold dismantle_spec_shard
      by_cases hs : s = sharder k.token
      · subst hs
        rw [if_neg hsv, if_neg hsv]
      · have hcf : List.filter (fun c => decide (chunk_shard sharder c = s))
            [(k, sz, body)] = [] := by
          simp [chunk_shard]
          exact fun hcon => hs hcon.symm
        rw [List.filter_append, hcf, List.append_nil]

theorem foldl_add_counts (l : List MutationFragment) :
    ∀ stats : dismantle_buffer_stats,
      (l.foldl dismantle_buffer_stats.add stats).fragments =
        stats.fragments + l.length ∧
      (l.foldl dismantle_buffer_stats.add stats).discarded_fragments =
        stats.discarded_fragments := by
  induction l with
  | nil => intro stats; simp
  | cons f t ih =>
    intro stats
    rw [List.foldl_cons]
    refine ⟨?_, ?_⟩
    · rw [(ih _).1]
      simp [dismantle_buffer_stats.add]
      omega
    · rw [(ih _).2]
      simp [dismantle_buffer_stats.add]

theorem foldl_add_discarded_counts (l : List MutationFragment) :
    ∀ stats : dismantle_buffer_stats,
      (l.foldl dismantle_buffer_stats.add_discarded stats).discarded_fragments =
        stats.discarded_fragments + l.length ∧
      (l.foldl dismantle_buffer_stats.add_discarded stats).fragments =
        stats.fragments := by
  induction l with
  | nil => intro stats; simp
  | cons f t ih =>
    intro stats
    rw [List.foldl_cons]
    refine ⟨?_, ?_⟩
    · rw [(ih _).1]
      simp [dismantle_buffer_stats.add_discarded]
      omega
    · rw [(ih _).2]
      simp [dismantle_buffer_stats.add_discarded]

theorem dismantle_loop_count (sharder : Sharder) (l : List MutationFragment) :
    ∀ readers tmp stats,
      (dismantle_loop sharder readers tmp stats l).2.2.fragments +
        (dismantle_loop sharder readers tmp stats l).2.2.discarded_fragments +
        (dismantle_loop sharder readers tmp stats l).2.1.length =
      stats.fragments + stats.discarded_fragments + tmp.length + l.length := by
  induction l with
  | nil => intro readers tmp stats; simp [dismantle_loop]
  | cons f rest ih =>
    intro readers tmp stats
    cases f with
    | partitionStart k sz =>
      by_cases hsv : (getReader readers (sharder k.token)).state ≠ reader_state.saving
      · simp only [dismantle_loop]
        rw [if_pos hsv, ih]
        have h1 := foldl_add_discarded_counts tmp stats
        simp only [dismantle_buffer_stats.add_discarded, List.length_nil, List.length_cons]
        omega
      · simp only [dismantle_loop]
        rw [if_neg hsv, ih]
        have h1 := foldl_add_counts tmp stats
        simp only [dismantle_buffer_stats.add, List.length_nil, List.length_cons]
        omega
    | staticRow n =>
      rw [show dismantle_loop sharder readers tmp stats (.staticRow n :: rest) =
        dismantle_loop sharder readers (tmp ++ [.staticRow n]) stats rest from rfl, ih]
      simp
      omega
    | clusteringRow n =>
      rw [show dismantle_loop sharder readers tmp stats (.clusteringRow n :: rest) =
        dismantle_loop sharder readers (tmp ++ [.clusteringRow n]) stats rest from rfl, ih]
      simp
      omega
    | rangeTombstoneChange n =>
      rw [show dismantle_loop sharder readers tmp stats (.rangeTombstoneChange n :: rest) =
        dismantle_loop sharder readers (tmp ++ [.rangeTombstoneChange n]) stats rest from rfl, ih]
      simp
      omega
    | partitionEnd n =>
      rw [show dismantle_loop sharder readers tmp stats (.partitionEnd n :: rest) =
        dismantle_loop sharder readers (tmp ++ [.partitionEnd n]) stats rest from rfl, ih]
      simp
      omega

theorem dismantle_combined_buffer_count (sharder : Sharder)
    (readers : List reader_meta) (buffer : List MutationFragment)
    (pkey : DecoratedKey) :
    (dismantle_combined_buffer sharder readers buffer pkey).2.fragments +
      (dismantle_combined_buffer sharder readers buffer pkey).2.discarded_fragments =
      buffer.length := by
  simp only [dismantle_combined_buffer]
  have hl := dismantle_loop_count sharder buffer.reverse readers [] {}
  have hf := foldl_add_counts
    (dismantle_loop sharder readers [] {} buffer.reverse).2.1
    (dismantle_loop sharder readers [] {} buffer.reverse).2.2
  rw [hf.1, hf.2]
  simp only [List.length_nil, List.length_reverse] at hl
  have hz : ({} : dismantle_buffer_stats).fragments = 0 := rfl
  have hz2 : ({} : dismantle_buffer_stats).discarded_fragments = 0 := rfl
  omega

/-- C2: the tail-to-head walk of `dismantle_combined_buffer` equals its
forward specification: writing the combined buffer as a
`partition_start`-free prefix followed by chunks (each a
`partition_start` with its body), every shard's resulting dismantled
buffer is the prefix (exactly for the shard of the last delivered
partition key), followed by that shard's own chunks in original stream
order if the shard is in `saving` state (chunks of non-`saving` shards
are discarded), in front of the shard's previous buffer; and every
fragment of the buffer is accounted either as kept or as discarded. -/
theorem claim_C2_dismantle_combined_buffer (sharder : Sharder)
    (readers : List reader_meta) (pkey : DecoratedKey)
    (pre : List MutationFragment)
    (chunks : List (DecoratedKey × Nat × List MutationFragment))
    (hsh : ∀ t, sharder t < readers.length)
    (hpre : no_partition_start pre)
    (hbody : ∀ c ∈ chunks, no_partition_start c.2.2) :
    (∀ s, (getReader (dismantle_combined_buffer sharder readers
        (pre ++ (chunks.map chunk_fragments).flatten) pkey).1
          s).dismantled_buffer.getD [] =
      dismantle_spec_shard sharder readers pkey pre chunks s) ∧
    (dismantle_combined_buffer sharder readers
        (pre ++ (chunks.map chunk_fragments).flatten) pkey).2.fragments +
      (dismantle_combined_buffer sharder readers
        (pre ++ (chunks.map chunk_fragments).flatten) pkey).2.discarded_fragments =
      (pre ++ (chunks.map chunk_fragments).flatten).length :=
  ⟨fun s => dismantle_combined_buffer_spec sharder pkey pre hpre chunks hbody
      readers hsh s,
    dismantle_combined_buffer_count sharder readers _ pkey⟩

/-- C2 witness: with sharder `t % 2`, a prefix routed to shard 0 (the
last delivered key's shard), one chunk for the evicted shard 1
(discarded) and one chunk for the saving shard 0 (kept), the dismantled
buffer of shard 0 and the kept/discarded fragment counts are exactly as
specified. -/
theorem claim_C2_witness :
    (getReader (dismantle_combined_buffer (fun t => t % 2) c2_readers
        ([.clusteringRow 9] ++
          (([(⟨1, 0⟩, 2, [.clusteringRow 3]), (⟨2, 0⟩, 4, [])].map
            chunk_fragments)).flatten) ⟨0, 5⟩).1 0).dismantled_buffer.getD [] =
      dismantle_spec_shard (fun t => t % 2) c2_readers ⟨0, 5⟩
        [.clusteringRow 9] [(⟨1, 0⟩, 2, [.clusteringRow 3]), (⟨2, 0⟩, 4, [])] 0 ∧
    dismantle_spec_shard (fun t => t % 2) c2_readers ⟨0, 5⟩
        [.clusteringRow 9] [(⟨1, 0⟩, 2, [.clusteringRow 3]), (⟨2, 0⟩, 4, [])] 0 =
      [.clusteringRow 9, .partitionStart ⟨2, 0⟩ 4, .partitionEnd 7] ∧
    (dismantle_combined_buffer (fun t => t % 2) c2_readers
        ([.clusteringRow 9] ++
          (([(⟨1, 0⟩, 2, [.clusteringRow 3]), (⟨2, 0⟩, 4, [])].map
            chunk_fragments)).flatten) ⟨0, 5⟩).2.fragments +
      (dismantle_combined_buffer (fun t => t % 2) c2_readers
        ([.clusteringRow 9] ++
          (([(⟨1, 0⟩, 2, [.clusteringRow 3]), (⟨2, 0⟩, 4, [])].map
            chunk_fragments)).flatten) ⟨0, 5⟩).2.discarded_fragments =
      ([MutationFragment.clusteringRow 9] ++
        (([(⟨1, 0⟩, 2, [MutationFragment.clusteringRow 3]), (⟨2, 0⟩, 4, [])].map
          chunk_fragments)).flatten).length := by
  have h := claim_C2_dismantle_combined_buffer (fun t => t % 2) c2_readers
    ⟨0, 5⟩ [.clusteringRow 9] [(⟨1, 0⟩, 2, [.clusteringRow 3]), (⟨2, 0⟩, 4, [])]
    (fun t => Nat.mod_lt t (by decide))
    (by intro f hf; simp at hf; subst hf; rfl)
    (by intro c hc
        simp only [List.mem_cons, List.not_mem_nil, or_false] at hc
        rcases hc with hc | hc <;> subst hc <;> intro f hf <;> simp at hf <;>
          subst hf <;> rfl)
  exact ⟨h.1 0, by decide, h.2⟩

/-! The multi-range reader's two fill guarantees. -/

theorem mr_wf_reader_fill (c : Nat) (st : mr_state) (h : mr_wf st) :
    mr_wf (reader_fill c st) := by
  rcases hrem : st.reader_remaining with _ | ⟨a, l⟩
  · have heq : reader_fill c st = { st with reader_eos := true } := by
      simp [reader_fill, hrem]
    rw [heq]
    exact ⟨h.1, h.2.1, h.2.2⟩
  · have heq : reader_fill c st = { st with
        reader_buffer := st.reader_buffer ++ (a :: l).take (c + 1)
        reader_remaining := (a :: l).drop (c + 1) } := by
      simp [reader_fill, hrem]
    rw [heq]
    refine ⟨?_, ?_, h.2.2⟩
    · intro f hf
      rcases List.mem_append.mp hf with hf | hf
      · exact h.1 f hf
      · exact h.2.1 f (by rw [hrem]; exact List.take_subset _ _ hf)
    · intro f hf
      exact h.2.1 f (by rw [hrem]; exact List.drop_subset _ _ hf)

theorem reader_fill_cur (c : Nat) (st : mr_state) :
    (reader_fill c st).cur = st.cur := by
  rcases hrem : st.reader_remaining with _ | ⟨a, l⟩ <;> simp [reader_fill, hrem]

theorem reader_fill_wrapper_buffer (c : Nat) (st : mr_state) :
    (reader_fill c st).buffer = st.buffer := by
  rcases hrem : st.reader_remaining with _ | ⟨a, l⟩ <;> simp [reader_fill, hrem]

theorem move_fill_step (c : Nat) (st' : mr_state) (hwf' : mr_wf st')
    (hbuf' : st'.buffer = []) :
    mr_wf (move_buffer_content
      (if _h : st'.reader_buffer = [] then reader_fill c st' else st')) ∧
    (∀ f ∈ (move_buffer_content
        (if _h : st'.reader_buffer = [] then reader_fill c st' else st')).buffer,
      f.range_idx = (move_buffer_content
        (if _h : st'.reader_buffer = [] then reader_fill c st' else st')).cur) ∧
    ((move_buffer_content
        (if _h : st'.reader_buffer = [] then reader_fill c st' else st')).buffer ≠ [] →
      (move_buffer_content
        (if _h : st'.reader_buffer = [] then reader_fill c st' else st')).reader_buffer =
        []) := by
  by_cases hrb : st'.reader_buffer = []
  · rw [dif_pos hrb]
    have hwf2 := mr_wf_reader_fill c st' hwf'
    refine ⟨⟨?_, hwf2.2.1, hwf2.2.2⟩, ?_, fun _ => rfl⟩
    · intro f hf
      exact absurd hf (List.not_mem_nil f)
    · intro f hf
      simp only [move_buffer_content] at hf
      rw [reader_fill_wrapper_buffer, hbuf', List.nil_append] at hf
      exact hwf2.1 f hf
  · rw [dif_neg hrb]
    refine ⟨⟨?_, hwf'.2.1, hwf'.2.2⟩, ?_, fun _ => rfl⟩
    · intro f hf
      exact absurd hf (List.not_mem_nil f)
    · intro f hf
      simp only [move_buffer_content] at hf
      rw [hbuf', List.nil_append] at hf
      exact hwf'.1 f hf

theorem fill_buffer_loop_invariant (oracle : Nat → Nat) (k : Nat) (st : mr_state) :
    mr_wf st → (∀ f ∈ st.buffer, f.range_idx = st.cur) →
    (st.buffer ≠ [] → st.reader_buffer = []) →
    (fill_buffer_loop oracle k st).reader_buffer = [] ∧
    (∀ f ∈ (fill_buffer_loop oracle k st).buffer,
      f.range_idx = (fill_buffer_loop oracle k st).cur) := by
  induction k, st using fill_buffer_loop.induct oracle with
  | case1 k st hne =>
    intro hwf hhom himp
    rw [fill_buffer_loop.eq_def, if_pos hne]
    exact ⟨himp hne, hhom⟩
  | case2 k st hbne hre hr =>
    intro hwf hhom himp
    rw [fill_buffer_loop.eq_def, if_neg hbne, if_pos hre]
    split
    · exact ⟨hre.1, fun f hf => hhom f hf⟩
    · next r' rs' heq =>
      rw [hr] at heq
      exact absurd heq (by simp)
  | case3 k st hbne hre r rs hr st1 st2 ih =>
    intro hwf hhom himp
    have hbuf : st.buffer = [] := not_not.mp (by simpa using hbne)
    have hbuf1 : st1.buffer = [] := hbuf
    have hwf1 : mr_wf st1 := by
      refine ⟨?_, ?_, ?_⟩
      · intro f hf
        have hf' : f ∈ st.reader_buffer := hf
        rw [hre.1] at hf'
        exact absurd hf' (List.not_mem_nil f)
      · intro f hf
        have hf' : f ∈ r := hf
        have := hwf.2.2 0 f (by rw [hr]; simpa using hf')
        simpa using this
      · intro i f hf
        have hf' : f ∈ rs.getD i [] := hf
        have := hwf.2.2 (i + 1) f (by rw [hr]; simpa using hf')
        have hc : st1.cur = st.cur + 1 := rfl
        rw [hc]
        omega
    have hstep := move_fill_step (oracle k) st1 hwf1 hbuf1
    rw [fill_buffer_loop.eq_def, if_neg hbne, if_pos hre]
    split
    · next heq =>
      rw [hr] at heq
      exact absurd heq (by simp)
    · next r' rs' heq =>
      rw [hr] at heq
      injection heq with h1 h2
      subst h1
      subst h2
      exact ih hstep.1 hstep.2.1 hstep.2.2
  | case4 k st hbne hre st2 ih =>
    intro hwf hhom himp
    have hbuf : st.buffer = [] := not_not.mp (by simpa using hbne)
    have hstep := move_fill_step (oracle k) st hwf hbuf
    rw [fill_buffer_loop.eq_def, if_neg hbne, if_neg hre]
    exact ih hstep.1 hstep.2.1 hstep.2.2

/-- C7: for a well-formed multi-range reader state whose wrapper and
underlying buffers are empty (the steady state between fills), a single
`fill_buffer` call (a) never mixes fragments of two different ranges in
the wrapper's buffer, and (b) leaves the underlying reader's buffer
fully drained. -/
theorem claim_C7_multi_range_reader_fill (oracle : Nat → Nat) (st : mr_state)
    (hwf : mr_wf st) (hbuf : st.buffer = []) (hrb : st.reader_buffer = []) :
    (mr_fill_buffer oracle st).reader_buffer = [] ∧
    (∀ f g, f ∈ (mr_fill_buffer oracle st).buffer →
      g ∈ (mr_fill_buffer oracle st).buffer → f.range_idx = g.range_idx) := by
  unfold mr_fill_buffer
  by_cases heos : st.end_of_stream = true
  · rw [if_pos heos]
    exact ⟨hrb, fun f g hf hg => by
      rw [hbuf] at hf
      exact absurd hf (List.not_mem_nil f)⟩
  · rw [if_neg heos]
    have h := fill_buffer_loop_invariant oracle 0 st hwf
      (fun f hf => by rw [hbuf] at hf; exact absurd hf (List.not_mem_nil f))
      (fun hne => absurd hbuf hne)
    exact ⟨h.1, fun f g hf hg => by rw [h.2 f hf, h.2 g hg]⟩

/-- C7 witness: a concrete fill takes one fragment of range 0, leaves
the underlying buffer empty, and the resulting buffer holds fragments
of a single range. -/
theorem claim_C7_witness :
    c7_state.buffer = [] ∧ c7_state.reader_buffer = [] ∧
    (mr_fill_buffer (fun _ => 0) c7_state).reader_buffer = [] ∧
    (mr_fill_buffer (fun _ => 0) c7_state).buffer = [⟨0, 1⟩] := by
  have hwf : mr_wf c7_state := by
    refine ⟨?_, ?_, ?_⟩
    · intro f hf
      exact absurd hf (by simp [c7_state])
    · intro f hf
      simp only [c7_state, List.mem_cons, List.not_mem_nil, or_false] at hf
      rcases hf with hf | hf <;> subst hf <;> rfl
    · intro i f hf
      cases i with
      | zero =>
        simp only [c7_state, List.getD_cons_zero, List.mem_cons,
          List.not_mem_nil, or_false] at hf
        subst hf
        rfl
      | succ n =>
        simp only [c7_state, List.getD_cons_succ] at hf
        exact absurd hf (by simp [List.getD])
  have h := claim_C7_multi_range_reader_fill (fun _ => 0) c7_state hwf rfl rfl
  have heval : (mr_fill_buffer (fun _ => 0) c7_state).buffer = [⟨0, 1⟩] := by
    rw [mr_fill_buffer]
    rw [if_neg (by simp [c7_state])]
    rw [fill_buffer_loop.eq_def]
    norm_num [c7_state, reader_fill, reader_fast_forward, move_buffer_content]
    rw [fill_buffer_loop.eq_def]
    norm_num [reader_fill, reader_fast_forward, move_buffer_content]
  exact ⟨rfl, rfl, h.1, heval⟩


end MultishardQuery
